import Mathlib

/-!
Verification of the day-by-day simulation core of the `team-work` repository.

The definitions below are shallow embeddings of the Python modules
`twork/agent/simulation_engine.py`, `twork/agent/environment_agent.py`,
`twork/agent/daily_summary.py` and `twork/agent/simulation_metadata.py`.
Python floats are modelled as rationals, Python `round` as round-half-to-even
on rationals, Python dicts as association lists, fallible dictionary indexing
as `Option`, and the LLM capability plus the random-number generator as
explicit functional parameters.
-/

namespace TWork

/-- Round a rational to the nearest integer, ties to even
(the behaviour of Python `round` on floats, modelled over `ℚ`). -/

def roundHalfEven (x : ℚ) : ℤ :=
  let f : ℤ := ⌊x⌋
  let frac : ℚ := x - f
  if frac < 1/2 then f
  else if 1/2 < frac then f + 1
  else if f % 2 = 0 then f else f + 1

/-- Python `round(x, 1)` modelled over `ℚ`. -/

def round1 (x : ℚ) : ℚ := (roundHalfEven (x * 10) : ℚ) / 10

/-- Python `round(x, 2)` modelled over `ℚ`. -/

def round2 (x : ℚ) : ℚ := (roundHalfEven (x * 100) : ℚ) / 100

/-- A task as consumed by the simulation engine: the fields of the Python
task dict that the engine reads (`task_id`, `task_name`, `dependencies`). -/

structure Task where
  task_id : String
  task_name : String
  dependencies : List String
  deriving DecidableEq, Repr

/-- A worker/agent as consumed by the engine (`agent_id`, `role_name`,
`assigned_tasks`). -/

structure Agent where
  agent_id : String
  role_name : String
  assigned_tasks : List String
  deriving DecidableEq, Repr

/-- An environment event, as the dict built by
`EnvironmentAgent.inject_events`. -/

structure EnvEvent where
  timestamp : String
  day : Nat
  event_type : String
  category : String
  category_name : String
  role_name : String
  content : String
  delay_days : ℚ
  severity : String
  affected_tasks : List String
  deriving DecidableEq, Repr

/-- Model of `random.choice` over a list, with the drawn index supplied by the
oracle; the index is reduced modulo the length so that any oracle value
denotes a valid draw.  `default` is returned for the empty list (on which
Python `random.choice` raises; all uses below are on non-empty lists). -/

def choiceOf (l : List α) (i : Nat) (default : α) : α :=
  l.getD (i % l.length) default

/-- One call's worth of random draws for `EnvironmentAgent.inject_events`:
`r` is the `random.random()` value, the index fields stand for the
`random.choice`/`random.randint` draws, `delayDraw` is the unit draw
underlying `random.uniform(min_delay, max_delay)`, and `sample` stands for
`random.sample(tasks, k)`. -/

structure RngDraws where
  r : ℚ
  catIdx : Nat
  descIdx : Nat
  delayDraw : ℚ
  numDraw : Nat
  sample : List Task → Nat → List Task
  hourDraw : Nat
  minuteIdx : Nat

/-- The per-category configuration of `EnvironmentAgent.EVENT_TYPES`:
display name, catalog of causes, and the severity (delay) range. -/

structure EventConfig where
  name : String
  events : List String
  severityLo : ℚ
  severityHi : ℚ
  deriving DecidableEq, Repr

/-- Model of `EVENT_TYPES["technical"]`. -/

def technicalConfig : EventConfig :=
  { name := "技术问题"
    events := ["依赖库版本冲突需要解决", "第三方API接口不稳定", "发现严重性能瓶颈需要优化",
               "代码审查发现安全漏洞需要修复", "测试环境数据库异常", "编译构建失败需要排查",
               "内存泄漏问题需要处理", "跨浏览器兼容性问题"]
    severityLo := 1/2, severityHi := 2 }

/-- Model of `EVENT_TYPES["resource"]`. -/

def resourceConfig : EventConfig :=
  { name := "资源问题"
    events := ["核心开发人员突然请病假", "产品经理临时出差", "客户提出紧急需求需要插队",
               "服务器硬件故障", "测试环境不可用", "设计师工作负载过高延期交付",
               "运维团队进行系统升级", "关键设备需要维护"]
    severityLo := 1, severityHi := 3 }

/-- Model of `EVENT_TYPES["communication"]`. -/

def communicationConfig : EventConfig :=
  { name := "沟通问题"
    events := ["需求规格说明有歧义需要澄清", "设计稿延期交付", "跨部门协调困难",
               "客户反馈延迟", "需求变更需要重新评估", "会议时间冲突导致讨论延后",
               "关键决策人不在导致决策延迟", "文档更新不及时造成误解"]
    severityLo := 1/2, severityHi := 3/2 }

/-- Model of `EVENT_TYPES["external"]`. -/

def externalConfig : EventConfig :=
  { name := "外部因素"
    events := ["法定节假日", "停电维护", "网络故障", "办公楼电梯故障影响上班",
               "极端天气影响办公", "政策变化需要调整方案", "合作伙伴交付延期",
               "第三方服务商维护升级"]
    severityLo := 1, severityHi := 5 }

/-- The keys of `EVENT_TYPES`, in insertion order. -/

def eventTypeKeys : List String := ["technical", "resource", "communication", "external"]

/-- Look up an event-type key in `EVENT_TYPES`. -/

def eventConfig (key : String) : EventConfig :=
  if key = "technical" then technicalConfig
  else if key = "resource" then resourceConfig
  else if key = "communication" then communicationConfig
  else externalConfig

/-- The impact record computed by `EnvironmentAgent._calculate_impact`. -/

structure Impact where
  delay : ℚ
  affected_tasks : List String
  affected_count : Nat
  severity : String
  deriving DecidableEq, Repr

/-- Model of `EnvironmentAgent._calculate_impact`: draw a delay in the category's
severity range (rounded to 1 decimal), pick `min(len(tasks), randint(1,3))`
affected tasks, and classify severity by the delay. -/

def calculateImpact (rng : RngDraws) (cfg : EventConfig) (tasks : List Task) : Impact :=
  let delay := round1 (cfg.severityLo + rng.delayDraw * (cfg.severityHi - cfg.severityLo))
  let numAffected := min tasks.length (1 + rng.numDraw % 3)
  let affected := (rng.sample tasks numAffected).map Task.task_id
  let severity := if 2 < delay then "high" else if 1 < delay then "medium" else "low"
  { delay := delay, affected_tasks := affected, affected_count := numAffected,
    severity := severity }

/-- Zero-pad a natural number to two digits, as Python `{:02d}`. -/

def pad2 (n : Nat) : String :=
  if n < 10 then "0" ++ toString n else toString n

/-- Model of `EnvironmentAgent.inject_events`: returns no events on an idle day,
filters the enabled category keys, draws `random.random()` against
`probability`, and otherwise builds exactly one event from the drawn
category, cause, impact and timestamp.  The drawn values come from `rng`;
`histLen` is `len(self.event_history)` (used only in the event's metadata
in the source, so not reflected in the returned record here beyond being
a parameter of the call shape). -/

def injectEvents (rng : RngDraws) (day : Nat) (tasks : List Task)
    (probability : ℚ) (enabledEventTypes : Option (List String)) : List EnvEvent :=
  if tasks.isEmpty then []
  else
    let enabled := match enabledEventTypes with
      | none => eventTypeKeys
      | some l => l.filter (fun t => t ∈ eventTypeKeys)
    if enabled.isEmpty then []
    else if rng.r < probability then
      let eventType := choiceOf enabled rng.catIdx "technical"
      let cfg := eventConfig eventType
      let eventDesc := choiceOf cfg.events rng.descIdx ""
      let impact := calculateImpact rng cfg tasks
      let eventHour := 9 + rng.hourDraw % 9
      let eventMinute := choiceOf [0, 15, 30, 45] rng.minuteIdx 0
      let ts := toString day ++ "d " ++ pad2 eventHour ++ ":" ++ pad2 eventMinute
      [{ timestamp := ts, day := day, event_type := "env_event", category := eventType,
         category_name := cfg.name, role_name := "环境因素", content := eventDesc,
         delay_days := impact.delay, severity := impact.severity,
         affected_tasks := impact.affected_tasks }]
    else []

/-- A value in the summary dict returned by
`EnvironmentAgent.get_event_summary`: a rational, a count, or one of the
per-category / per-severity breakdown tables (name ↦ count, total delay). -/

inductive SVal where
  | q (v : ℚ)
  | cnt (v : Nat)
  | table (m : List (String × Nat × ℚ))
  deriving DecidableEq, Repr

/-- Accumulate one event into a breakdown table keyed by `key`, preserving
first-seen insertion order (the behaviour of the Python dict loop in
`get_event_summary`). -/

def tableAdd (m : List (String × Nat × ℚ)) (key : String) (delay : ℚ) :
    List (String × Nat × ℚ) :=
  if m.any (fun p => p.1 = key) then
    m.map (fun p => if p.1 = key then (p.1, p.2.1 + 1, p.2.2 + delay) else p)
  else
    m ++ [(key, 1, delay)]

/-- Model of `EnvironmentAgent.get_event_summary`, as a function of the accumulated
event history.  Note that the empty-history branch returns a dict with no
`average_delay` key. -/

def getEventSummary (hist : List EnvEvent) : List (String × SVal) :=
  if hist.isEmpty then
    [("total_events", SVal.cnt 0), ("total_delay", SVal.q 0),
     ("by_category", SVal.table []), ("by_severity", SVal.table [])]
  else
    let totalDelay := (hist.map EnvEvent.delay_days).sum
    let byCategory := hist.foldl (fun m e => tableAdd m e.category_name e.delay_days) []
    let bySeverity := hist.foldl (fun m e => tableAdd m e.severity e.delay_days) []
    [("total_events", SVal.cnt hist.length),
     ("total_delay", SVal.q (round1 totalDelay)),
     ("average_delay", SVal.q (round1 (totalDelay / hist.length))),
     ("by_category", SVal.table byCategory),
     ("by_severity", SVal.table bySeverity)]

/-- Whether a key is present in an association-list dict. -/

def hasField (m : List (String × SVal)) (key : String) : Bool :=
  m.any (fun p => p.1 = key)

/-- Look up a key in an association-list dict. -/

def getField (m : List (String × SVal)) (key : String) : Option SVal :=
  (m.find? (fun p => p.1 = key)).map (fun p => p.2)

/-- One per-task result in a parsed work-generation (LLM) outcome. -/

structure TaskResult where
  task_id : String
  task_name : String
  start_time : String
  end_time : String
  output : String
  status : String
  progress_percentage : Int
  deriving DecidableEq, Repr

/-- One discussion entry in a parsed work-generation outcome. -/

structure Discussion where
  time : String
  with_role : String
  topic : String
  content : String
  deriving DecidableEq, Repr

/-- A parsed per-worker daily outcome (the dict returned by
`SimulationEngine._simulate_agent_day`). -/

structure Outcome where
  day_number : Nat
  agent_id : String
  role_name : String
  completed_tasks : List TaskResult
  discussions : List Discussion
  notes : String
  deriving DecidableEq, Repr

/-- A detailed execution log entry (the dicts built by
`SimulationEngine._convert_to_detailed_logs` and the env-event entries of
the day loop). -/

structure LogEntry where
  timestamp : String
  day : Nat
  event_type : String
  role_name : String
  task_id : Option String
  task_name : Option String
  content : String
  status : Option String
  progress_percentage : Option Int
  participants : Option (List String) := none
  deriving DecidableEq, Repr

/-- One element of an agent summary's `tasks_executed` list. -/

structure TaskExecuted where
  task_id : String
  task_name : String
  status : String
  progress : Int
  output : String
  deriving DecidableEq, Repr

/-- One element of an agent summary's `communications` list. -/

structure AgentComm where
  time : String
  withRole : String
  topic : String
  content : String
  deriving DecidableEq, Repr

/-- A per-agent daily summary built by
`DailySummaryAgent._generate_agent_summaries`. -/

structure AgentSummary where
  agent_id : String
  role_name : String
  tasks_executed : List TaskExecuted
  communications : List AgentComm
  work_hours : Int
  efficiency : Int
  deriving DecidableEq, Repr

/-- One cross-agent communication record built by
`DailySummaryAgent._extract_communications`. -/

structure CrossComm where
  time : String
  fromRole : String
  from_id : String
  toRole : String
  topic : String
  content : String
  deriving DecidableEq, Repr

/-- One formatted environment event in a daily summary. -/

structure FmtEnvEvent where
  time : String
  event_type : String
  description : String
  deriving DecidableEq, Repr

/-- The daily summary dict built by
`DailySummaryAgent.generate_daily_summary`. -/

structure Summary where
  day_number : Nat
  total_tasks_started : Nat
  total_tasks_completed : Nat
  agent_summaries : List AgentSummary
  communications : List CrossComm
  env_events : List FmtEnvEvent
  overall_progress : ℚ
  deriving DecidableEq, Repr

/-- Group agent logs by `agent_id` preserving first-seen order, keeping the
first log's `role_name` (the `agent_groups` dict loop of
`_generate_agent_summaries`). -/

def groupLogsByAgent (logs : List Outcome) : List (String × String × List Outcome) :=
  logs.foldl (fun acc log =>
    if acc.any (fun g => g.1 = log.agent_id) then
      acc.map (fun g => if g.1 = log.agent_id then (g.1, g.2.1, g.2.2 ++ [log]) else g)
    else acc ++ [(log.agent_id, log.role_name, [log])]) []

/-- Build one agent's summary from its grouped logs
(`_generate_agent_summaries`, per-group body). -/

def agentSummaryOf (agentId roleName : String) (logs : List Outcome) : AgentSummary :=
  let tasksExecuted := (logs.map (fun l => l.completed_tasks.map (fun ct =>
    ({ task_id := ct.task_id, task_name := ct.task_name, status := ct.status,
       progress := ct.progress_percentage, output := ct.output } : TaskExecuted)))).flatten
  let comms := (logs.map (fun l => l.discussions.map (fun d =>
    ({ time := d.time, withRole := d.with_role, topic := d.topic,
       content := d.content } : AgentComm)))).flatten
  let workHours : Int := tasksExecuted.length * 2
  let eff : Int := 85 + tasksExecuted.length * 2
  { agent_id := agentId, role_name := roleName, tasks_executed := tasksExecuted,
    communications := comms, work_hours := workHours,
    efficiency := if 100 < eff then 100 else eff }

/-- Stable insertion of a communication into a list sorted by `time`
(models Python's stable `list.sort(key=time)`). -/

def insertByTime (c : CrossComm) : List CrossComm → List CrossComm
  | [] => [c]
  | d :: rest => if c.time < d.time then c :: d :: rest else d :: insertByTime c rest

/-- Stable sort of communications by `time`. -/

def sortByTime (l : List CrossComm) : List CrossComm :=
  l.foldl (fun acc c => insertByTime c acc) []

/-- Model of `DailySummaryAgent._extract_communications`. -/

def extractCommunications (dayLogs : List Outcome) : List CrossComm :=
  sortByTime ((dayLogs.map (fun l => l.discussions.map (fun d =>
    ({ time := d.time, fromRole := l.role_name, from_id := l.agent_id,
       toRole := d.with_role, topic := d.topic, content := d.content } : CrossComm)))).flatten)

/-- Model of `DailySummaryAgent._format_env_events`. -/

def formatEnvEvents (dayEnv : List EnvEvent) : List FmtEnvEvent :=
  dayEnv.map (fun e =>
    { time := e.timestamp, event_type := e.event_type, description := e.content })

/-- The `task_start` / `task_complete` counting loop of
`generate_daily_summary` (an `if`/`elif` over the day's detailed logs). -/

def countStartedCompleted (dayDetailed : List LogEntry) : Nat × Nat :=
  dayDetailed.foldl (fun p l =>
    if l.event_type = "task_start" then (p.1 + 1, p.2)
    else if l.event_type = "task_complete" ∧ l.status = some "completed" then (p.1, p.2 + 1)
    else p) (0, 0)

/-- Model of `DailySummaryAgent.generate_daily_summary`. -/

def generateDailySummary (dayNumber : Nat) (agentLogs : List Outcome)
    (detailedLogs : List LogEntry) (envEvents : List EnvEvent) : Summary :=
  let dayLogs := agentLogs.filter (fun l => l.day_number = dayNumber)
  let dayDetailed := detailedLogs.filter (fun l => l.day = dayNumber)
  let dayEnv := envEvents.filter (fun e => e.day = dayNumber)
  let counts := countStartedCompleted dayDetailed
  let overall : ℚ := if 0 < counts.1 then ((counts.2 : ℚ) / (counts.1 : ℚ)) * 100 else 0
  { day_number := dayNumber
    total_tasks_started := counts.1
    total_tasks_completed := counts.2
    agent_summaries := (groupLogsByAgent dayLogs).map (fun g => agentSummaryOf g.1 g.2.1 g.2.2)
    communications := extractCommunications dayLogs
    env_events := formatEnvEvents dayEnv
    overall_progress := round2 overall }

/-! ### Metadata overlay (`simulation_metadata.py`)

The overlay functions operate on raw Python dicts, so here agents and
tasks are modelled as association lists over a small value type. -/

/-- A Python value stored in a raw agent/task dict, as far as the overlay
code inspects it: a string, a list of strings, a number, or an opaque
other value indexed by a tag. -/

inductive PVal where
  | s (v : String)
  | ls (v : List String)
  | n (v : Int)
  | other (tag : Nat)
  deriving DecidableEq, Repr

/-- A raw Python dict (insertion-ordered association list with unique keys
maintained by `dictSet`). -/

abbrev PDict : Type := List (String × PVal)

/-- Dict lookup (`d.get(k)` / `d[k]`, the latter fallible). -/

def dictGetKey (d : PDict) (k : String) : Option PVal :=
  (List.find? (fun p => p.1 = k) d).map (fun p => p.2)

/-- Dict assignment `d[k] = v`: overwrite in place, else append. -/

def dictSet (d : PDict) (k : String) (v : PVal) : PDict :=
  if (List.any d (fun p => p.1 = k)) then
    List.map (fun p => if p.1 = k then (k, v) else p) d
  else d ++ [(k, v)]

/-- Python `dict.update(changes)`. -/

def dictUpdate (d : PDict) (changes : List (String × PVal)) : PDict :=
  changes.foldl (fun acc p => dictSet acc p.1 p.2) d

/-- Python `v in l` for a value tested against a list of strings. -/

def pvalInStrList (v : PVal) (l : List String) : Bool :=
  match v with
  | PVal.s str => str ∈ l
  | _ => false

/-- Python `v == s` for a value tested against a string. -/

def pvalEqStr (v : PVal) (str : String) : Bool :=
  match v with
  | PVal.s x => x = str
  | _ => false

/-- An `AgentModification` / `TaskModification` record: target id and the
field/value changes. -/

structure Modification where
  target_id : String
  changes : List (String × PVal)
  deriving DecidableEq, Repr

/-- The `SimulationMetadata` fields consumed by the three apply functions. -/

structure SimulationMetadata where
  removed_agents : List String
  removed_tasks : List String
  modified_agents : List Modification
  modified_tasks : List Modification
  manual_assignments : List (String × String)
  completed_tasks : List String
  deriving DecidableEq, Repr

/-- Model of `SimulationMetadata.get_agent_modifications`. -/

def getAgentModifications (md : SimulationMetadata) (agentId : PVal) :
    Option (List (String × PVal)) :=
  (md.modified_agents.find? (fun m => pvalEqStr agentId m.target_id)).map
    (fun m => m.changes)

/-- Model of `SimulationMetadata.get_task_modifications`. -/

def getTaskModifications (md : SimulationMetadata) (taskId : PVal) :
    Option (List (String × PVal)) :=
  (md.modified_tasks.find? (fun m => pvalEqStr taskId m.target_id)).map
    (fun m => m.changes)

/-- The removal filter of `apply_metadata_to_agents`
(`[a for a in agents if not metadata.is_agent_removed(a["agent_id"])]`);
`none` models the `KeyError` on a dict without an `agent_id` key. -/

def filterRemoved (key : String) (removed : List String) :
    List PDict → Option (List PDict)
  | [] => some []
  | a :: rest =>
    match dictGetKey a key with
    | none => none
    | some v =>
      match filterRemoved key removed rest with
      | none => none
      | some kept => some (if pvalInStrList v removed then kept else a :: kept)

/-- The modification loop of `apply_metadata_to_agents`
(reads `agent["agent_id"]`, applies `agent.update(modifications)` when a
non-empty changes dict is recorded; Python's `if modifications:` is false
for an empty dict). -/

def applyAgentMods (md : SimulationMetadata) : List PDict → Option (List PDict)
  | [] => some []
  | a :: rest =>
    match dictGetKey a "agent_id" with
    | none => none
    | some v =>
      let a' := match getAgentModifications md v with
        | some changes => if changes.isEmpty then a else dictUpdate a changes
        | none => a
      match applyAgentMods md rest with
      | none => none
      | some rest' => some (a' :: rest')

/-- Model of `apply_metadata_to_agents`. -/

def applyMetadataToAgents (agents : List PDict) (md : SimulationMetadata) :
    Option (List PDict) :=
  match filterRemoved "agent_id" md.removed_agents agents with
  | none => none
  | some kept => applyAgentMods md kept

/-- The modification loop of `apply_metadata_to_tasks`: field overrides,
then the forced-completion marking (`task["status"] = "completed"`). -/

def applyTaskMods (md : SimulationMetadata) : List PDict → Option (List PDict)
  | [] => some []
  | t :: rest =>
    match dictGetKey t "task_id" with
    | none => none
    | some v =>
      let t' := match getTaskModifications md v with
        | some changes => if changes.isEmpty then t else dictUpdate t changes
        | none => t
      let t'' := if pvalInStrList v md.completed_tasks
        then dictSet t' "status" (PVal.s "completed") else t'
      match applyTaskMods md rest with
      | none => none
      | some rest' => some (t'' :: rest')

/-- Model of `apply_metadata_to_tasks`. -/

def applyMetadataToTasks (tasks : List PDict) (md : SimulationMetadata) :
    Option (List PDict) :=
  match filterRemoved "task_id" md.removed_tasks tasks with
  | none => none
  | some kept => applyTaskMods md kept

/-- The assignment loop body of `apply_manual_assignments`: append
`taskId` to the first agent whose `agent_id` equals `agentId` (reading
`agent["agent_id"]`, a fallible index). -/

def assignToFirst (taskId agentId : String) : List PDict → Option (List PDict)
  | [] => some []
  | a :: rest =>
    match dictGetKey a "agent_id" with
    | none => none
    | some v =>
      if pvalEqStr v agentId then
        let assigned := match dictGetKey a "assigned_tasks" with
          | some (PVal.ls l) => l
          | _ => []
        let a' := if taskId ∈ assigned then a
          else dictSet a "assigned_tasks" (PVal.ls (assigned ++ [taskId]))
        some (a' :: rest)
      else
        match assignToFirst taskId agentId rest with
        | none => none
        | some rest' => some (a :: rest')

/-- Model of `apply_manual_assignments`: returns the agents unchanged when there
are no manual assignments; otherwise clears every agent's
`assigned_tasks` and replays the assignment map. -/

def applyManualAssignments (agents : List PDict) (md : SimulationMetadata) :
    Option (List PDict) :=
  if md.manual_assignments.isEmpty then some agents
  else
    let cleared := agents.map (fun a => dictSet a "assigned_tasks" (PVal.ls []))
    md.manual_assignments.foldl
      (fun acc p =>
        match acc with
        | none => none
        | some ags => assignToFirst p.1 p.2 ags)
      (some cleared)

/-! ### Simulation engine (`simulation_engine.py`) -/

/-- Per-task runtime state (`{"status": ..., "progress": ...}`). -/

structure TState where
  status : String
  progress : Int
  deriving DecidableEq, Repr

/-- The `task_status` dict of the engine. -/

abbrev StatusMap : Type := List (String × TState)

/-- Model of `task_status.get(tid)` (first match; Python dicts have unique keys). -/

def smGet (sm : StatusMap) (tid : String) : Option TState :=
  match sm with
  | [] => none
  | p :: rest => if p.1 = tid then some p.2 else smGet rest tid

/-- Mutate `task_status[tid]` in place; `none` models the `KeyError` of
direct indexing when `tid` is not a key. -/

def smSetExisting (sm : StatusMap) (tid : String) (f : TState → TState) :
    Option StatusMap :=
  match smGet sm tid with
  | none => none
  | some _ => some (List.map (fun p => if p.1 = tid then (p.1, f p.2) else p) sm)

/-- The initial status dict
`{task["task_id"]: {"status": "pending", "progress": 0} for task in tasks}`
(later duplicate ids overwrite earlier ones, as in a Python dict
comprehension). -/

def statusInit (tasks : List Task) : StatusMap :=
  tasks.foldl (fun m t =>
    if List.any m (fun p => p.1 = t.task_id) then
      List.map (fun p => if p.1 = t.task_id then (p.1, ⟨"pending", 0⟩) else p) m
    else m ++ [(t.task_id, ⟨"pending", 0⟩)]) []

/-- The `task_dict` lookup of `_topological_sort`
(`{t["task_id"]: t for t in tasks}`, later entries overwrite earlier). -/

def taskDictGet (tasks : List Task) (id : String) : Option Task :=
  tasks.foldl (fun acc t => if t.task_id = id then some t else acc) none

/-- The recursive `visit` helper of `SimulationEngine._topological_sort`,
with an explicit recursion-depth budget `fuel` (the Python source recurses
without any bound; on acyclic inputs a budget of `tasks.length` is shown
below to be never exhausted).  The state is the pair
(visited ids, sorted tasks). -/

def visitF (td : String → Option Task) :
    Nat → String → List String × List Task → List String × List Task
  | 0, _, st => st
  | fuel + 1, id, st =>
    if id ∈ st.1 then st
    else
      match td id with
      | none => st
      | some task =>
        let st' := task.dependencies.foldl (fun s d => visitF td fuel d s) st
        (id :: st'.1, st'.2 ++ [task])

/-- Model of `SimulationEngine._topological_sort` run with a given recursion
budget per outer `visit` call. -/

def topoSortFuel (tasks : List Task) (fuel : Nat) : List Task :=
  (tasks.foldl (fun st t => visitF (taskDictGet tasks) fuel t.task_id st) ([], [])).2

/-- Model of `SimulationEngine._topological_sort`. -/

def topologicalSort (tasks : List Task) : List Task :=
  topoSortFuel tasks tasks.length

/-- Whether a dependency id refers to a completed task
(`task_status.get(dep, {}).get("status") == "completed"`). -/

def depCompleted (sm : StatusMap) (dep : String) : Bool :=
  match smGet sm dep with
  | some s => s.status = "completed"
  | none => false

/-- Model of `SimulationEngine._get_available_tasks`; `none` models the `KeyError`
of `task_status[task["task_id"]]` on a task absent from the status dict. -/

def getAvailableTasks (tasks : List Task) (sm : StatusMap) : Option (List Task) :=
  match tasks with
  | [] => some []
  | t :: rest =>
    match smGet sm t.task_id with
    | none => none
    | some st =>
      match getAvailableTasks rest sm with
      | none => none
      | some avail =>
        if st.status = "completed" then some avail
        else if t.dependencies.all (fun d => depCompleted sm d) then some (t :: avail)
        else some avail

/-- Model of `SimulationEngine._build_context`. -/

def buildContext (day : Nat) (agent : Agent) (sm : StatusMap) : String :=
  "已完成任务数: " ++
    toString (sm.countP (fun p => p.2.status == "completed")) ++ "/" ++ toString sm.length

/-- The abstracted work-generation capability: the LLM call plus JSON
parsing of `_simulate_agent_day`; `none` models an exception or
unparsable output. -/

abbrev Capability : Type := Nat → Agent → List Task → String → Option Outcome

/-- The notes string of the substituted outcome on capability failure. -/

def failNotes : String := "模拟失败"

/-- Model of `SimulationEngine._simulate_agent_day`: on success the parsed result
with `day_number` / `agent_id` / `role_name` metadata set; on any failure
a default outcome with empty lists and the failure note. -/

def simulateAgentDay (cap : Capability) (dayNumber : Nat) (agent : Agent)
    (tasks : List Task) (context : String) : Outcome :=
  match cap dayNumber agent tasks context with
  | some r => { r with day_number := dayNumber, agent_id := agent.agent_id,
                       role_name := agent.role_name }
  | none => { day_number := dayNumber, agent_id := agent.agent_id,
              role_name := agent.role_name, completed_tasks := [],
              discussions := [], notes := failNotes }

/-- Model of `SimulationEngine._convert_to_detailed_logs`. -/

def convertToDetailedLogs (dayLog : Outcome) (tasks : List Task) : List LogEntry :=
  let day := dayLog.day_number
  let roleName := dayLog.role_name
  ((dayLog.completed_tasks.map (fun ti =>
    let taskName := match tasks.find? (fun t => t.task_id = ti.task_id) with
      | some t => t.task_name
      | none => ti.task_id
    [({ timestamp := toString day ++ "d " ++ ti.start_time, day := day,
        event_type := "task_start", role_name := roleName, task_id := some ti.task_id,
        task_name := some taskName, content := "开始执行任务: " ++ taskName,
        status := some "in_progress", progress_percentage := some 0 } : LogEntry),
     ({ timestamp := toString day ++ "d " ++ ti.end_time, day := day,
        event_type := if ti.status = "completed" then "task_complete" else "task_progress",
        role_name := roleName, task_id := some ti.task_id, task_name := some taskName,
        content := ti.output, status := some ti.status,
        progress_percentage := some ti.progress_percentage } : LogEntry)])).flatten)
  ++ dayLog.discussions.map (fun d =>
    ({ timestamp := toString day ++ "d " ++ d.time, day := day,
       event_type := "discussion", role_name := roleName, task_id := none,
       task_name := none,
       content := "[与 " ++ d.with_role ++ " 讨论] " ++ d.topic ++ ": " ++ d.content,
       status := none, progress_percentage := none,
       participants := some [roleName, d.with_role] } : LogEntry))

/-- The detailed-log entry recorded for an environment event in the day
loop of `simulate` / `simulate_stream`. -/

def envLogEntry (day : Nat) (e : EnvEvent) : LogEntry :=
  { timestamp := e.timestamp, day := day, event_type := "env_event",
    role_name := "环境因素", task_id := none, task_name := none,
    content := e.content, status := none, progress_percentage := none }

/-- The task-status update loop of `simulate` / `simulate_stream`
(`task_status[task_id]["progress"] = ...; if status == "completed": ...`);
`none` models the `KeyError` on a `task_id` that is not a key of the
status dict. -/

def applyCompleted : StatusMap → List TaskResult → Option StatusMap
  | sm, [] => some sm
  | sm, ct :: rest =>
    match smSetExisting sm ct.task_id (fun s =>
      { s with progress := ct.progress_percentage,
               status := if ct.status = "completed" then "completed" else s.status }) with
    | none => none
    | some sm' => applyCompleted sm' rest

/-- The per-day state threaded through the day loop: the status dict,
`self.simulation_logs`, the detailed logs, the environment events, and
the environment agent's internal state (its RNG and history). -/

structure EngineSt (σ : Type) where
  status : StatusMap
  slogs : List Outcome
  detail : List LogEntry
  envEvents : List EnvEvent
  envSt : σ

/-- The abstracted environment agent: `inject_events` as a function of the
day, the day's available tasks and the agent's internal state. -/

abbrev EnvFn (σ : Type) : Type := Nat → List Task → σ → List EnvEvent × σ

/-- The per-agent loop of one day of `SimulationEngine.simulate`. -/

def runAgents (cap : Capability) (day : Nat) (avail : List Task) :
    List Agent → EngineSt σ → Option (EngineSt σ)
  | [], st => some st
  | agent :: rest, st =>
    let agentTasks := avail.filter (fun t => t.task_id ∈ agent.assigned_tasks)
    if agentTasks.isEmpty then runAgents cap day avail rest st
    else
      let dayLog := simulateAgentDay cap day agent agentTasks (buildContext day agent st.status)
      let detailNew := convertToDetailedLogs dayLog agentTasks
      match applyCompleted st.status dayLog.completed_tasks with
      | none => none
      | some status' =>
        runAgents cap day avail rest
          { st with status := status', slogs := st.slogs ++ [dayLog],
                    detail := st.detail ++ detailNew }

/-- One day of `SimulationEngine.simulate`: resolve the available tasks,
skip the day entirely when none are available, otherwise inject
environment events (when enabled) and run every agent. -/

def runDay (cap : Capability) (envFn : EnvFn σ) (enableEnv : Bool)
    (agents : List Agent) (sortedTasks : List Task) (day : Nat)
    (st : EngineSt σ) : Option (EngineSt σ) :=
  match getAvailableTasks sortedTasks st.status with
  | none => none
  | some avail =>
    if avail.isEmpty then some st
    else
      let p := if enableEnv then envFn day avail st.envSt else ([], st.envSt)
      let st1 : EngineSt σ :=
        { st with envSt := p.2, envEvents := st.envEvents ++ p.1,
                  detail := st.detail ++ p.1.map (envLogEntry day) }
      runAgents cap day avail agents st1

/-- The day loop of `SimulationEngine.simulate`. -/

def runDays (cap : Capability) (envFn : EnvFn σ) (enableEnv : Bool)
    (agents : List Agent) (sortedTasks : List Task) :
    List Nat → EngineSt σ → Option (EngineSt σ)
  | [], st => some st
  | d :: ds, st =>
    match runDay cap envFn enableEnv agents sortedTasks d st with
    | none => none
    | some st' => runDays cap envFn enableEnv agents sortedTasks ds st'

/-- The batch result dict of `SimulationEngine.simulate`. -/

structure SimResult where
  logs : List Outcome
  detailed_logs : List LogEntry
  daily_summaries : List Summary
  env_events : List EnvEvent
  env_summary : Option (List (String × SVal))
  deriving DecidableEq, Repr

/-- Model of `range(1, total_days + 1)`. -/

def dayRange (totalDays : Nat) : List Nat := (List.range totalDays).map (· + 1)

/-- Model of `SimulationEngine.simulate`; `none` models an exception aborting the
run (a `KeyError` from an unknown task id in a capability outcome). -/

def simulate (cap : Capability) (envFn : EnvFn σ) (agents : List Agent)
    (tasks : List Task) (totalDays : Nat) (enableEnv : Bool) (envSt0 : σ) :
    Option SimResult :=
  match runDays cap envFn enableEnv agents (topologicalSort tasks) (dayRange totalDays)
      ⟨statusInit tasks, [], [], [], envSt0⟩ with
  | none => none
  | some st =>
    let sums := ((dayRange totalDays).map (fun d =>
        generateDailySummary d st.slogs st.detail st.envEvents)).filter
        (fun s => 0 < s.total_tasks_started ∨ 0 < s.total_tasks_completed)
    some { logs := st.slogs, detailed_logs := st.detail, daily_summaries := sums,
           env_events := st.envEvents,
           env_summary := if enableEnv then some (getEventSummary st.envEvents) else none }

/-- One unit yielded by `SimulationEngine.simulate_stream`. -/

inductive StreamUnit where
  | day_start (day : Nat) (available_tasks : List String)
  | env_event (day : Nat) (events : List EnvEvent)
  | agent_work (day : Nat) (logs : List LogEntry)
  | day_summary (day : Nat) (completed_tasks total_tasks env_events_today : Nat)
      (daily_summary : Summary)
  | complete (total_logs : Nat) (detailed_logs : List LogEntry)
      (daily_summaries : List Summary) (env_events : List EnvEvent)
      (env_summary : Option (List (String × SVal)))
  deriving DecidableEq, Repr

/-- The per-agent loop of one day of `simulate_stream`: like `runAgents`
but also accumulating the day's detailed log entries for the `agent_work`
unit, and never touching `self.simulation_logs`. -/

def runAgentsStream (cap : Capability) (day : Nat) (avail : List Task) :
    List Agent → EngineSt σ → List LogEntry → Option (EngineSt σ × List LogEntry)
  | [], st, dayLogs => some (st, dayLogs)
  | agent :: rest, st, dayLogs =>
    let agentTasks := avail.filter (fun t => t.task_id ∈ agent.assigned_tasks)
    if agentTasks.isEmpty then runAgentsStream cap day avail rest st dayLogs
    else
      let dayLog := simulateAgentDay cap day agent agentTasks (buildContext day agent st.status)
      let detailNew := convertToDetailedLogs dayLog agentTasks
      match applyCompleted st.status dayLog.completed_tasks with
      | none => none
      | some status' =>
        runAgentsStream cap day avail rest
          { st with status := status', detail := st.detail ++ detailNew }
          (dayLogs ++ detailNew)

/-- One day of `simulate_stream`: the `day_start` unit, the optional
`env_event` unit, the `agent_work` unit and the `day_summary` unit, plus
the threaded state. -/

def streamDay (cap : Capability) (envFn : EnvFn σ) (enableEnv : Bool)
    (agents : List Agent) (sortedTasks : List Task) (totalTasks : Nat)
    (day : Nat) (st : EngineSt σ) : Option (List StreamUnit × EngineSt σ) :=
  match getAvailableTasks sortedTasks st.status with
  | none => none
  | some avail =>
    let u1 := StreamUnit.day_start day (avail.map Task.task_id)
    let p := if enableEnv then envFn day avail st.envSt else ([], st.envSt)
    let envUnits := if p.1.isEmpty then [] else [StreamUnit.env_event day p.1]
    let st1 : EngineSt σ :=
      { st with envSt := p.2, envEvents := st.envEvents ++ p.1,
                detail := st.detail ++ p.1.map (envLogEntry day) }
    match runAgentsStream cap day avail agents st1 [] with
    | none => none
    | some (st2, dayLogs) =>
      let completedCount := st2.status.countP (fun q => q.2.status == "completed")
      let ds := generateDailySummary day
        (st2.slogs.filter (fun l => l.day_number = day))
        (st2.detail.filter (fun l => l.day = day))
        (st2.envEvents.filter (fun e => e.day = day))
      some ([u1] ++ envUnits ++
        [StreamUnit.agent_work day dayLogs,
         StreamUnit.day_summary day completedCount totalTasks p.1.length ds], st2)

/-- The day loop of `simulate_stream`. -/

def streamDays (cap : Capability) (envFn : EnvFn σ) (enableEnv : Bool)
    (agents : List Agent) (sortedTasks : List Task) (totalTasks : Nat) :
    List Nat → EngineSt σ → Option (List StreamUnit × EngineSt σ)
  | [], st => some ([], st)
  | d :: ds, st =>
    match streamDay cap envFn enableEnv agents sortedTasks totalTasks d st with
    | none => none
    | some (units, st') =>
      match streamDays cap envFn enableEnv agents sortedTasks totalTasks ds st' with
      | none => none
      | some (units', st'') => some (units ++ units', st'')

/-- Model of `SimulationEngine.simulate_stream` as the list of yielded units;
`none` models an exception terminating the generator (in which case no
`complete` unit is ever produced).  `prevLogs` is the engine's
`self.simulation_logs` at the start of the stream (empty for a fresh
engine); the streaming day loop never appends to it. -/

def simulateStream (cap : Capability) (envFn : EnvFn σ) (agents : List Agent)
    (tasks : List Task) (totalDays : Nat) (enableEnv : Bool) (envSt0 : σ)
    (prevLogs : List Outcome) : Option (List StreamUnit) :=
  match streamDays cap envFn enableEnv agents (topologicalSort tasks) tasks.length
      (dayRange totalDays) ⟨statusInit tasks, prevLogs, [], [], envSt0⟩ with
  | none => none
  | some (units, st) =>
    let sums := ((dayRange totalDays).map (fun d =>
        generateDailySummary d (st.slogs.filter (fun l => l.day_number = d))
          (st.detail.filter (fun l => l.day = d))
          (st.envEvents.filter (fun e => e.day = d)))).filter
        (fun s => 0 < s.total_tasks_started ∨ 0 < s.total_tasks_completed)
    some (units ++ [StreamUnit.complete st.detail.length st.detail sums st.envEvents
      (if enableEnv then some (getEventSummary st.envEvents) else none)])

/-! ### Supporting definitions for the theorems below -/

/-- A concrete two-task set (B depends on A) for witnesses. -/
def tasksW1 : List Task :=
  [⟨"A", "Task A", []⟩, ⟨"B", "Task B", ["A"]⟩]

/-- A concrete status map: A completed, B pending. -/
def smW1 : StatusMap := [("A", ⟨"completed", 100⟩), ("B", ⟨"pending", 0⟩)]

/-- A concrete all-zero rng oracle for witnesses. -/
def rngW : RngDraws :=
  { r := 0, catIdx := 0, descIdx := 0, delayDraw := 0, numDraw := 0,
    sample := fun l k => l.take k, hourDraw := 0, minuteIdx := 0 }

/-- A concrete agent dict and task dict for the C7 witness. -/
def agentsW : List PDict :=
  [[("agent_id", PVal.s "a1"), ("role_name", PVal.s "dev"),
    ("assigned_tasks", PVal.ls ["T1"])]]

/-- A concrete task dict list for the C7 witness. -/
def tasksWD : List PDict :=
  [[("task_id", PVal.s "T1"), ("status", PVal.s "pending")]]

/-- The all-empty overlay. -/
def emptyOverlay : SimulationMetadata := ⟨[], [], [], [], [], []⟩

/-- The always-failing capability (for counterexamples/witnesses). -/
def capNone : Capability := fun _ _ _ _ => none

/-- The silent environment function over a unit state. -/
def envFnUnit : EnvFn Unit := fun _ _ s => ([], s)

/-- The result of the empty one-day run with the environment agent
enabled. -/
def resEmptyRun : SimResult :=
  { logs := [], detailed_logs := [], daily_summaries := [], env_events := [],
    env_summary := some (getEventSummary []) }

/-- A concrete no-dependency task for witnesses. -/
def t0W : Task := ⟨"T1", "Task 1", []⟩

/-- A concrete worker assigned to `t0W`. -/
def wW : Agent := ⟨"a1", "dev", ["T1"]⟩

/-- A per-task result naming a task id that is not part of the run. -/
def ctBad : TaskResult := ⟨"T999", "", "09:00", "10:00", "out", "completed", 100⟩

/-- A parsed outcome carrying the unknown task id. -/
def rBad : Outcome := ⟨0, "", "", [ctBad], [], "done"⟩

/-- A capability that always returns `rBad`. -/
def capBad : Capability := fun _ _ _ _ => some rBad

/-- The substituted outcome of a failed per-worker capability call. -/
def failedOutcome (d : Nat) (a : Agent) : Outcome :=
  ⟨d, a.agent_id, a.role_name, [], [], failNotes⟩

/-- The capability that behaves like `cap` except that on workers with
`w`'s id it succeeds with the empty, failure-marked outcome. -/
def substFail (cap : Capability) (w : Agent) : Capability :=
  fun d a ts ctx =>
    if a.agent_id = w.agent_id then
      some ⟨d, a.agent_id, a.role_name, [], [], failNotes⟩
    else cap d a ts ctx

/-- A capability that fails exactly on worker id `a1` and succeeds with an
empty outcome otherwise. -/
def capFailW : Capability := fun d a ts ctx =>
  if a.agent_id = "a1" then none else some ⟨d, a.agent_id, a.role_name, [], [], "ok"⟩

/-- Discriminator for the final `complete` stream unit. -/
def isCompleteUnit : StreamUnit → Bool
  | .complete _ _ _ _ _ => true
  | _ => false

/-- The result of an empty one-day run with the environment agent
disabled. -/
def resF : SimResult := ⟨[], [], [], [], none⟩

/-- The stream of the empty one-day run with the environment agent
disabled. -/
def unitsF : List StreamUnit :=
  [StreamUnit.day_start 1 [], StreamUnit.agent_work 1 [],
   StreamUnit.day_summary 1 0 0 0 (generateDailySummary 1 [] [] []),
   StreamUnit.complete 0 [] [] [] none]

/-- The per-day shape of the stream: for each day, one `day_start`, then
one `env_event` exactly when the day's event list is non-empty, then one
`agent_work`, then one `day_summary`, in this order. -/
inductive StreamShape : List Nat → List StreamUnit → Prop where
  | nil : StreamShape [] []
  | day (d : Nat) (ds : List Nat) (avail : List String) (evs : List EnvEvent)
      (logs : List LogEntry) (c tt et : Nat) (sm : Summary) (rest : List StreamUnit) :
      StreamShape ds rest →
      StreamShape (d :: ds)
        ([StreamUnit.day_start d avail] ++
          (if evs.isEmpty then [] else [StreamUnit.env_event d evs]) ++
          [StreamUnit.agent_work d logs, StreamUnit.day_summary d c tt et sm] ++ rest)

/-- A list of tasks respects dependencies when every dependency of an
entry that names a task of the run appears strictly earlier. -/
def depsRespected (tasks l : List Task) : Prop :=
  ∀ n t, l.get? n = some t → ∀ d ∈ t.dependencies,
    (∃ u ∈ tasks, u.task_id = d) →
    ∃ m u, m < n ∧ l.get? m = some u ∧ u.task_id = d

/-- The invariant of the `visit` recursion's (visited, sorted) state. -/
def SortInv (tasks : List Task) (st : List String × List Task) : Prop :=
  st.1 = (st.2.map Task.task_id).reverse ∧
  (∀ u ∈ st.2, u ∈ tasks) ∧
  (st.2.map Task.task_id).Nodup ∧
  depsRespected tasks st.2

/-- Task X depending on B, then independent tasks A and B, in this input
order: the DFS hoists B ahead of A. -/
def tieTasks : List Task := [⟨"X", "X", ["B"]⟩, ⟨"A", "A", []⟩, ⟨"B", "B", []⟩]

/-- The rank function witnessing acyclicity of `tieTasks`. -/
def rankW : String → Nat := fun id => if id = "X" then 1 else 0

/-! ### Basic lemmas -/

theorem round2_zero : round2 0 = 0 := by
  simp [round2, roundHalfEven]

/-! ### C1: eligibility of tasks -/

/-- C1: for every task set and status map covering the tasks, the
dependency resolver's available set contains a task iff the task's status
is not completed and every one of its dependency ids refers to a task
whose status is completed; in particular a task with no dependencies is
available until completed. -/

theorem C1_eligible_iff (tasks : List Task) (sm : StatusMap)
    (hall : ∀ t ∈ tasks, (smGet sm t.task_id).isSome) :
    ∃ avail, getAvailableTasks tasks sm = some avail ∧
      (∀ t, t ∈ avail ↔
        t ∈ tasks ∧ (smGet sm t.task_id).map TState.status ≠ some "completed" ∧
          ∀ d ∈ t.dependencies, depCompleted sm d = true) ∧
      (∀ t ∈ tasks, t.dependencies = [] →
        (smGet sm t.task_id).map TState.status ≠ some "completed" → t ∈ avail) := by
  induction tasks with
  | nil =>
    refine ⟨[], rfl, ?_, ?_⟩ <;> simp
  | cons t rest ih =>
    have ht : (smGet sm t.task_id).isSome := hall t (List.mem_cons_self t rest)
    obtain ⟨st, hst⟩ := Option.isSome_iff_exists.mp ht
    obtain ⟨avail, havail, hiff, _⟩ := ih (fun u hu => hall u (List.mem_cons_of_mem t hu))
    by_cases hc : st.status = "completed"
    · refine ⟨avail, ?_, ?_, ?_⟩
      · simp only [getAvailableTasks, hst, havail, if_pos hc]
      · intro x
        rw [hiff x]
        constructor
        · rintro ⟨hx, hns, hd⟩
          exact ⟨List.mem_cons_of_mem t hx, hns, hd⟩
        · rintro ⟨hx, hns, hd⟩
          rcases List.mem_cons.mp hx with rfl | hx
          · exact absurd (by simp [hst, hc]) hns
          · exact ⟨hx, hns, hd⟩
      · intro x hx hdep hns
        rcases List.mem_cons.mp hx with rfl | hx
        · exact absurd (by simp [hst, hc]) hns
        · exact (hiff x).mpr ⟨hx, hns, by simp [hdep]⟩
    · by_cases hd : ∀ d ∈ t.dependencies, depCompleted sm d = true
      · refine ⟨t :: avail, ?_, ?_, ?_⟩
        · simp only [getAvailableTasks, hst, havail, if_neg hc]
          rw [if_pos (List.all_eq_true.mpr hd)]
        · intro x
          simp only [List.mem_cons, hiff x]
          constructor
          · rintro (rfl | ⟨hx, hns, hds⟩)
            · exact ⟨Or.inl rfl, by simp [hst, hc], hd⟩
            · exact ⟨Or.inr hx, hns, hds⟩
          · rintro ⟨rfl | hx, hns, hds⟩
            · exact Or.inl rfl
            · exact Or.inr ⟨hx, hns, hds⟩
        · intro x hx hdep hns
          rcases List.mem_cons.mp hx with rfl | hx
          · exact List.mem_cons_self _ _
          · exact List.mem_cons_of_mem _ ((hiff x).mpr ⟨hx, hns, by simp [hdep]⟩)
      · refine ⟨avail, ?_, ?_, ?_⟩
        · simp only [getAvailableTasks, hst, havail, if_neg hc]
          rw [if_neg (by simpa using hd)]
        · intro x
          rw [hiff x]
          constructor
          · rintro ⟨hx, hns, hds⟩
            exact ⟨List.mem_cons_of_mem t hx, hns, hds⟩
          · rintro ⟨hx, hns, hds⟩
            rcases List.mem_cons.mp hx with rfl | hx
            · exact absurd hds hd
            · exact ⟨hx, hns, hds⟩
        · intro x hx hdep hns
          rcases List.mem_cons.mp hx with rfl | hx
          · exact absurd (by simp [hdep]) hd
          · exact (hiff x).mpr ⟨hx, hns, by simp [hdep]⟩

/-- Witness for C1 at a concrete task set and status map. -/

theorem C1_eligible_iff_witness :
    (∀ t ∈ tasksW1, (smGet smW1 t.task_id).isSome) ∧
    (∃ avail, getAvailableTasks tasksW1 smW1 = some avail ∧
      (∀ t, t ∈ avail ↔
        t ∈ tasksW1 ∧ (smGet smW1 t.task_id).map TState.status ≠ some "completed" ∧
          ∀ d ∈ t.dependencies, depCompleted smW1 d = true) ∧
      (∀ t ∈ tasksW1, t.dependencies = [] →
        (smGet smW1 t.task_id).map TState.status ≠ some "completed" → t ∈ avail)) :=
  ⟨by decide, C1_eligible_iff tasksW1 smW1 (by decide)⟩

/-! ### C5: environment injector gating -/

/-- C5: for every rng draw (with a non-negative uniform value), day, task
list, probability and enabled-category set, the injector returns no
events on an idle day (any probability), returns no events when the
probability is zero (any task list), and never returns more than one
event. -/

theorem C5_injector_gating (rng : RngDraws) (day : Nat) (tasks : List Task)
    (probability : ℚ) (enabled : Option (List String)) (hr : 0 ≤ rng.r) :
    (tasks = [] → injectEvents rng day tasks probability enabled = []) ∧
    (probability = 0 → injectEvents rng day tasks probability enabled = []) ∧
    (injectEvents rng day tasks probability enabled).length ≤ 1 := by
  refine ⟨?_, ?_, ?_⟩
  · intro h
    subst h
    rfl
  · intro h
    subst h
    unfold injectEvents
    split
    · rfl
    · split <;> simp [hr.not_lt, eventTypeKeys]
  · unfold injectEvents
    split
    · simp
    · split <;> split_ifs <;> simp <;> split_ifs <;> simp

/-- Witness for C5: idle day with probability 1, nonempty day with
probability 0, and the one-event bound at probability 1/2. -/

theorem C5_injector_gating_witness :
    injectEvents rngW 3 [] 1 none = [] ∧
    injectEvents rngW 3 tasksW1 0 none = [] ∧
    (injectEvents rngW 3 tasksW1 (1/2) none).length ≤ 1 :=
  ⟨(C5_injector_gating rngW 3 [] 1 none (le_refl 0)).1 rfl,
   (C5_injector_gating rngW 3 tasksW1 0 none (le_refl 0)).2.1 rfl,
   (C5_injector_gating rngW 3 tasksW1 (1/2) none (le_refl 0)).2.2⟩

/-! ### C3: daily summary counts -/

theorem countStartedCompleted_eq (l : List LogEntry) :
    countStartedCompleted l =
      (l.countP (fun e => decide (e.event_type = "task_start")),
       l.countP (fun e =>
         decide (e.event_type = "task_complete" ∧ e.status = some "completed"))) := by
  suffices h : ∀ (a b : Nat),
      l.foldl (fun p e =>
        if e.event_type = "task_start" then (p.1 + 1, p.2)
        else if e.event_type = "task_complete" ∧ e.status = some "completed" then (p.1, p.2 + 1)
        else p) (a, b)
      = (a + l.countP (fun e => decide (e.event_type = "task_start")),
         b + l.countP (fun e =>
           decide (e.event_type = "task_complete" ∧ e.status = some "completed"))) by
    simpa [countStartedCompleted] using h 0 0
  induction l with
  | nil => simp
  | cons e l ih =>
    intro a b
    by_cases h1 : e.event_type = "task_start"
    · have h2 : ¬ (e.event_type = "task_complete" ∧ e.status = some "completed") := by
        rintro ⟨hc, -⟩
        rw [h1] at hc
        exact absurd hc (by decide)
      simp only [List.foldl_cons, if_pos h1, List.countP_cons, ih,
        decide_eq_true_eq, h1, h2]
      simp
      omega
    · by_cases h2 : e.event_type = "task_complete" ∧ e.status = some "completed"
      · simp only [List.foldl_cons, if_neg h1, if_pos h2, List.countP_cons, ih,
          decide_eq_true_eq, h1, h2]
        simp
        omega
      · simp only [List.foldl_cons, if_neg h1, if_neg h2, List.countP_cons, ih,
          decide_eq_true_eq, h1, h2]
        simp

/-- C3: for every day and set of logs, the daily summary's started count
is the number of that day's `task_start` entries, its completed count is
the number of that day's `task_complete` entries with completed status,
and its overall progress is 0 when nothing started and otherwise
100 × completed / started rounded to 2 decimals. -/

theorem C3_daily_summary_counts (dayNumber : Nat) (agentLogs : List Outcome)
    (detailedLogs : List LogEntry) (envEvents : List EnvEvent) :
    (generateDailySummary dayNumber agentLogs detailedLogs envEvents).total_tasks_started
      = detailedLogs.countP (fun e => decide (e.day = dayNumber ∧ e.event_type = "task_start")) ∧
    (generateDailySummary dayNumber agentLogs detailedLogs envEvents).total_tasks_completed
      = detailedLogs.countP (fun e => decide (e.day = dayNumber ∧
          e.event_type = "task_complete" ∧ e.status = some "completed")) ∧
    (generateDailySummary dayNumber agentLogs detailedLogs envEvents).overall_progress
      = (if detailedLogs.countP
            (fun e => decide (e.day = dayNumber ∧ e.event_type = "task_start")) = 0 then 0
         else round2 (100 *
           (detailedLogs.countP (fun e => decide (e.day = dayNumber ∧
              e.event_type = "task_complete" ∧ e.status = some "completed")) : ℚ) /
           (detailedLogs.countP
              (fun e => decide (e.day = dayNumber ∧ e.event_type = "task_start")) : ℚ))) := by
  have hs : (detailedLogs.filter (fun l => decide (l.day = dayNumber))).countP
        (fun e => decide (e.event_type = "task_start"))
      = detailedLogs.countP (fun e => decide (e.day = dayNumber ∧ e.event_type = "task_start")) := by
    rw [List.countP_filter]
    refine List.countP_congr ?_
    intro x _
    by_cases h1 : x.day = dayNumber <;> by_cases h2 : x.event_type = "task_start" <;>
      simp [h1, h2]
  have hc : (detailedLogs.filter (fun l => decide (l.day = dayNumber))).countP
        (fun e => decide (e.event_type = "task_complete" ∧ e.status = some "completed"))
      = detailedLogs.countP (fun e => decide (e.day = dayNumber ∧
          e.event_type = "task_complete" ∧ e.status = some "completed")) := by
    rw [List.countP_filter]
    refine List.countP_congr ?_
    intro x _
    by_cases h1 : x.day = dayNumber <;>
      by_cases h2 : x.event_type = "task_complete" ∧ x.status = some "completed" <;>
      simp [h1, h2]
  refine ⟨?_, ?_, ?_⟩
  · simp only [generateDailySummary, countStartedCompleted_eq, hs]
  · simp only [generateDailySummary, countStartedCompleted_eq, hc]
  · simp only [generateDailySummary, countStartedCompleted_eq, hs, hc]
    by_cases h0 : detailedLogs.countP
        (fun e => decide (e.day = dayNumber ∧ e.event_type = "task_start")) = 0
    · simp only [h0, if_pos rfl]
      simp [round2_zero]
    · rw [if_neg h0, if_pos (Nat.pos_of_ne_zero h0)]
      congr 1
      ring

/-! ### C7: empty overlay is the identity -/

theorem pvalInStrList_nil (v : PVal) : pvalInStrList v [] = false := by
  cases v <;> simp [pvalInStrList]

theorem filterRemoved_nil (key : String) (l : List PDict)
    (h : ∀ a ∈ l, (dictGetKey a key).isSome) :
    filterRemoved key [] l = some l := by
  induction l with
  | nil => rfl
  | cons a rest ih =>
    obtain ⟨v, hv⟩ := Option.isSome_iff_exists.mp (h a (List.mem_cons_self a rest))
    simp only [filterRemoved, hv, ih (fun x hx => h x (List.mem_cons_of_mem a hx)),
      pvalInStrList_nil, Bool.false_eq_true, if_false]

theorem applyAgentMods_nil (md : SimulationMetadata) (hma : md.modified_agents = [])
    (l : List PDict) (h : ∀ a ∈ l, (dictGetKey a "agent_id").isSome) :
    applyAgentMods md l = some l := by
  induction l with
  | nil => rfl
  | cons a rest ih =>
    obtain ⟨v, hv⟩ := Option.isSome_iff_exists.mp (h a (List.mem_cons_self a rest))
    simp only [applyAgentMods, hv, getAgentModifications, hma, List.find?_nil,
      ih (fun x hx => h x (List.mem_cons_of_mem a hx))]
    rfl

theorem applyTaskMods_nil (md : SimulationMetadata) (hmt : md.modified_tasks = [])
    (hct : md.completed_tasks = []) (l : List PDict)
    (h : ∀ t ∈ l, (dictGetKey t "task_id").isSome) :
    applyTaskMods md l = some l := by
  induction l with
  | nil => rfl
  | cons t rest ih =>
    obtain ⟨v, hv⟩ := Option.isSome_iff_exists.mp (h t (List.mem_cons_self t rest))
    simp only [applyTaskMods, hv, getTaskModifications, hmt, List.find?_nil,
      hct, pvalInStrList_nil, Bool.false_eq_true, if_false,
      ih (fun x hx => h x (List.mem_cons_of_mem t hx))]
    rfl

/-- C7: applying a metadata overlay whose removal, override, assignment
and forced-completion collections are all empty returns the worker and
task lists unchanged (given that every dict has its id key, without which
the source raises a `KeyError` regardless of the overlay). -/

theorem C7_empty_overlay_identity (agents tasks : List PDict) (md : SimulationMetadata)
    (hra : md.removed_agents = []) (hrt : md.removed_tasks = [])
    (hma : md.modified_agents = []) (hmt : md.modified_tasks = [])
    (hmn : md.manual_assignments = []) (hct : md.completed_tasks = [])
    (ha : ∀ a ∈ agents, (dictGetKey a "agent_id").isSome)
    (ht : ∀ t ∈ tasks, (dictGetKey t "task_id").isSome) :
    applyMetadataToAgents agents md = some agents ∧
    applyMetadataToTasks tasks md = some tasks ∧
    applyManualAssignments agents md = some agents := by
  refine ⟨?_, ?_, ?_⟩
  · rw [applyMetadataToAgents, hra, filterRemoved_nil "agent_id" agents ha]
    exact applyAgentMods_nil md hma agents ha
  · rw [applyMetadataToTasks, hrt, filterRemoved_nil "task_id" tasks ht]
    exact applyTaskMods_nil md hmt hct tasks ht
  · rw [applyManualAssignments, hmn]
    rfl

/-- Witness for C7 at concrete dicts and the empty overlay. -/

theorem C7_empty_overlay_identity_witness :
    applyMetadataToAgents agentsW emptyOverlay = some agentsW ∧
    applyMetadataToTasks tasksWD emptyOverlay = some tasksWD ∧
    applyManualAssignments agentsW emptyOverlay = some agentsW :=
  C7_empty_overlay_identity agentsW tasksWD emptyOverlay rfl rfl rfl rfl rfl rfl
    (by decide) (by decide)

/-! ### C8: environment summary fields -/

theorem getEventSummary_keys (hist : List EnvEvent) :
    hasField (getEventSummary hist) "total_events" = true ∧
    hasField (getEventSummary hist) "total_delay" = true ∧
    hasField (getEventSummary hist) "by_category" = true ∧
    hasField (getEventSummary hist) "by_severity" = true := by
  by_cases h : hist.isEmpty <;> simp [getEventSummary, h, hasField]

theorem getEventSummary_average (hist : List EnvEvent) (h : hist ≠ []) :
    hasField (getEventSummary hist) "average_delay" = true ∧
    getField (getEventSummary hist) "average_delay"
      = some (SVal.q (round1 ((hist.map EnvEvent.delay_days).sum / hist.length))) ∧
    getField (getEventSummary hist) "total_events" = some (SVal.cnt hist.length) := by
  have hne : hist.isEmpty = false := by simpa [List.isEmpty_iff] using h
  refine ⟨?_, ?_, ?_⟩ <;> simp [getEventSummary, hne, hasField, getField, List.find?]

/-- C8 (amended): every completed batch run with the environment agent
enabled returns an env summary over its event history that always
contains `total_events`, `total_delay`, `by_category` and `by_severity`,
and contains `average_delay` exactly when at least one event occurred,
in which case it is the sum of delays divided by the event count, rounded
to 1 decimal. -/

theorem C8_env_summary_fields (cap : Capability) (envFn : EnvFn σ)
    (agents : List Agent) (tasks : List Task) (totalDays : Nat) (envSt0 : σ)
    (res : SimResult)
    (hrun : simulate cap envFn agents tasks totalDays true envSt0 = some res) :
    res.env_summary = some (getEventSummary res.env_events) ∧
    hasField (getEventSummary res.env_events) "total_events" = true ∧
    hasField (getEventSummary res.env_events) "total_delay" = true ∧
    hasField (getEventSummary res.env_events) "by_category" = true ∧
    hasField (getEventSummary res.env_events) "by_severity" = true ∧
    (res.env_events ≠ [] →
      hasField (getEventSummary res.env_events) "average_delay" = true ∧
      getField (getEventSummary res.env_events) "average_delay"
        = some (SVal.q (round1
            ((res.env_events.map EnvEvent.delay_days).sum / res.env_events.length))) ∧
      getField (getEventSummary res.env_events) "total_events"
        = some (SVal.cnt res.env_events.length)) := by
  refine ⟨?_, (getEventSummary_keys _).1, (getEventSummary_keys _).2.1,
    (getEventSummary_keys _).2.2.1, (getEventSummary_keys _).2.2.2,
    fun h => getEventSummary_average _ h⟩
  unfold simulate at hrun
  cases hm : runDays cap envFn true agents (topologicalSort tasks) (dayRange totalDays)
      ⟨statusInit tasks, [], [], [], envSt0⟩ with
  | none =>
    rw [hm] at hrun
    exact absurd hrun (by simp)
  | some st =>
    rw [hm] at hrun
    rw [← Option.some.inj hrun]
    simp

/-- Counterexample for C8 as stated: a completed batch run with the
environment agent enabled and zero environment events returns an env
summary that does not contain the `average_delay` field. -/

theorem C8_counterexample :
    simulate capNone envFnUnit [] [] 1 true () = some resEmptyRun ∧
    resEmptyRun.env_events = [] ∧
    hasField (getEventSummary []) "average_delay" = false :=
  ⟨rfl, rfl, rfl⟩

/-- Witness for C8 at the empty one-day run. -/

theorem C8_env_summary_fields_witness :
    resEmptyRun.env_summary = some (getEventSummary resEmptyRun.env_events) ∧
    hasField (getEventSummary resEmptyRun.env_events) "total_events" = true ∧
    hasField (getEventSummary resEmptyRun.env_events) "total_delay" = true ∧
    hasField (getEventSummary resEmptyRun.env_events) "by_category" = true ∧
    hasField (getEventSummary resEmptyRun.env_events) "by_severity" = true ∧
    (resEmptyRun.env_events ≠ [] →
      hasField (getEventSummary resEmptyRun.env_events) "average_delay" = true ∧
      getField (getEventSummary resEmptyRun.env_events) "average_delay"
        = some (SVal.q (round1
            ((resEmptyRun.env_events.map EnvEvent.delay_days).sum /
              resEmptyRun.env_events.length))) ∧
      getField (getEventSummary resEmptyRun.env_events) "total_events"
        = some (SVal.cnt resEmptyRun.env_events.length)) :=
  C8_env_summary_fields capNone envFnUnit [] [] 1 () resEmptyRun rfl

/-! ### C9: unknown task ids abort the run -/

theorem smGet_overwrite (sm : StatusMap) (tid : String) (f : TState → TState)
    (id : String) :
    smGet (List.map (fun p => if p.1 = tid then (p.1, f p.2) else p) sm) id
      = (smGet sm id).map (fun v => if id = tid then f v else v) := by
  induction sm with
  | nil => rfl
  | cons p rest ih =>
    by_cases hpid : p.1 = id
    · by_cases hpt : p.1 = tid
      · have hidtid : id = tid := hpid.symm.trans hpt
        simp [smGet, hpt, hpid, hidtid]
      · have : ¬ id = tid := fun h => hpt (hpid.trans h)
        simp [smGet, hpt, hpid, this]
    · by_cases hpt : p.1 = tid
      · have hne : ¬ tid = id := fun h => hpid (hpt.trans h)
        simp [smGet, hpt, hpid, hne, ih]
      · simp [smGet, hpt, hpid, ih]

theorem smSetExisting_some (sm : StatusMap) (tid : String) (f : TState → TState)
    (sm' : StatusMap) (h : smSetExisting sm tid f = some sm') (id : String) :
    smGet sm' id = (smGet sm id).map (fun v => if id = tid then f v else v) := by
  unfold smSetExisting at h
  cases hg : smGet sm tid with
  | none => rw [hg] at h; exact absurd h (by simp)
  | some v =>
    rw [hg] at h
    rw [← Option.some.inj h]
    exact smGet_overwrite sm tid f id

theorem applyCompleted_none (cts : List TaskResult) (sm : StatusMap) (ct : TaskResult)
    (hct : ct ∈ cts) (hmiss : smGet sm ct.task_id = none) :
    applyCompleted sm cts = none := by
  induction cts generalizing sm with
  | nil => exact absurd hct (List.not_mem_nil ct)
  | cons c rest ih =>
    unfold applyCompleted
    cases hs : smSetExisting sm c.task_id (fun s =>
        { s with progress := c.progress_percentage,
                 status := if c.status = "completed" then "completed" else s.status }) with
    | none => rfl
    | some sm' =>
      rcases List.mem_cons.mp hct with rfl | hrest
      · exfalso
        unfold smSetExisting at hs
        rw [hmiss] at hs
        exact absurd hs (by simp)
      · exact ih _ hrest (by rw [smSetExisting_some sm _ _ sm' hs ct.task_id, hmiss]; rfl)

theorem applyCompleted_some_keys (cts : List TaskResult) (sm sm' : StatusMap)
    (h : applyCompleted sm cts = some sm') (id : String) :
    (smGet sm' id).isSome = (smGet sm id).isSome := by
  induction cts generalizing sm with
  | nil => rw [← Option.some.inj h]
  | cons c rest ih =>
    unfold applyCompleted at h
    cases hs : smSetExisting sm c.task_id (fun s =>
        { s with progress := c.progress_percentage,
                 status := if c.status = "completed" then "completed" else s.status }) with
    | none => rw [hs] at h; exact absurd h (by simp)
    | some sm1 =>
      rw [hs] at h
      rw [ih sm1 h, smSetExisting_some sm _ _ sm1 hs id]
      cases smGet sm id <;> simp

/-- C9: the task-status update of the day loop indexes the status dict
directly: (i) whenever some returned per-task result carries a task id
that is not a key of the status dict, the whole update fails; (ii) a run
(batch or streaming) of a single worker whose capability outcome contains
an unknown task id aborts entirely instead of being isolated to that
worker. -/

theorem C9_unknown_task_id_aborts (t0 : Task) (w : Agent) (cap : Capability)
    (envFn : EnvFn σ) (envSt0 : σ) (r : Outcome) (ct : TaskResult)
    (totalDays : Nat) (enableEnv : Bool) (prevLogs : List Outcome)
    (hdeps : t0.dependencies = [])
    (hassigned : t0.task_id ∈ w.assigned_tasks)
    (hcap : ∀ ts ctx, cap 1 w ts ctx = some r)
    (hct : ct ∈ r.completed_tasks)
    (hbad : ct.task_id ≠ t0.task_id)
    (hdays : 1 ≤ totalDays) :
    (∀ (sm : StatusMap) (cts : List TaskResult) (c : TaskResult),
      c ∈ cts → smGet sm c.task_id = none → applyCompleted sm cts = none) ∧
    simulate cap envFn [w] [t0] totalDays enableEnv envSt0 = none ∧
    simulateStream cap envFn [w] [t0] totalDays enableEnv envSt0 prevLogs = none := by
  have hstatus : statusInit [t0] = [(t0.task_id, ⟨"pending", 0⟩)] := rfl
  have hsorted : topologicalSort [t0] = [t0] := by
    simp [topologicalSort, topoSortFuel, visitF, taskDictGet, hdeps]
  have havail : getAvailableTasks [t0] [(t0.task_id, ⟨"pending", 0⟩)] = some [t0] := by
    simp [getAvailableTasks, smGet, List.find?, hdeps, depCompleted]
  have hmiss : smGet [(t0.task_id, (⟨"pending", 0⟩ : TState))] ct.task_id = none := by
    simp [smGet, List.find?, Ne.symm hbad]
  have hlog : ∀ ctx, simulateAgentDay cap 1 w [t0] ctx
      = { r with day_number := 1, agent_id := w.agent_id, role_name := w.role_name } := by
    intro ctx
    simp [simulateAgentDay, hcap]
  have habort : applyCompleted [(t0.task_id, (⟨"pending", 0⟩ : TState))] r.completed_tasks
      = none := applyCompleted_none r.completed_tasks _ ct hct hmiss
  obtain ⟨rest, hrange⟩ : ∃ rest, dayRange totalDays = 1 :: rest := by
    cases totalDays with
    | zero => exact absurd hdays (by simp)
    | succ k =>
      refine ⟨(List.range k).map (fun i => i + 2), ?_⟩
      simp [dayRange, List.range_succ_eq_map, List.map_map]
  have hfil : [t0].filter (fun t => decide (t.task_id ∈ w.assigned_tasks)) = [t0] := by
    simp [hassigned]
  refine ⟨fun sm cts c hc hm => applyCompleted_none cts sm c hc hm, ?_, ?_⟩
  · have hra : ∀ (st : EngineSt σ), st.status = [(t0.task_id, ⟨"pending", 0⟩)] →
        runAgents cap 1 [t0] [w] st = none := by
      intro st hs
      unfold runAgents
      rw [hfil]
      simp only [List.isEmpty_nil, Bool.false_eq_true, if_false, hlog, hs, habort]
      simp [hlog, hs, habort]
    have hrd : runDay cap envFn enableEnv [w] [t0] 1
        (⟨statusInit [t0], [], [], [], envSt0⟩ : EngineSt σ) = none := by
      unfold runDay
      rw [hstatus, havail]
      simp only [List.isEmpty_cons, Bool.false_eq_true, if_false]
      exact hra _ rfl
    unfold simulate
    rw [hsorted, hrange]
    unfold runDays
    rw [hrd]
  · have hra : ∀ (st : EngineSt σ) (acc : List LogEntry),
        st.status = [(t0.task_id, ⟨"pending", 0⟩)] →
        runAgentsStream cap 1 [t0] [w] st acc = none := by
      intro st acc hs
      unfold runAgentsStream
      rw [hfil]
      simp only [List.isEmpty_nil, Bool.false_eq_true, if_false, hlog, hs, habort]
      simp [hlog, hs, habort]
    have hsd : streamDay cap envFn enableEnv [w] [t0] 1 1
        (⟨statusInit [t0], prevLogs, [], [], envSt0⟩ : EngineSt σ) = none := by
      unfold streamDay
      rw [hstatus, havail]
      simp only
      rw [hra _ _ rfl]
    unfold simulateStream
    rw [hsorted, hrange]
    unfold streamDays
    simp only [List.length_cons, List.length_nil]
    rw [hsd]

/-- Witness for C9: with one worker and one task, an outcome naming the
unknown id `T999` aborts both the batch run and the stream. -/

theorem C9_unknown_task_id_aborts_witness :
    simulate capBad envFnUnit [wW] [t0W] 1 false () = none ∧
    simulateStream capBad envFnUnit [wW] [t0W] 1 false () [] = none :=
  ⟨(C9_unknown_task_id_aborts t0W wW capBad envFnUnit () rBad ctBad 1 false []
      rfl (by decide) (fun ts ctx => rfl) (by decide) (by decide) (by decide)).2.1,
   (C9_unknown_task_id_aborts t0W wW capBad envFnUnit () rBad ctBad 1 false []
      rfl (by decide) (fun ts ctx => rfl) (by decide) (by decide) (by decide)).2.2⟩

/-! ### C2: capability failure is isolated -/

theorem simulateAgentDay_fail (cap : Capability) (d : Nat) (a : Agent)
    (ts : List Task) (ctx : String) (h : cap d a ts ctx = none) :
    simulateAgentDay cap d a ts ctx = failedOutcome d a := by
  simp [simulateAgentDay, h, failedOutcome]

theorem simulateAgentDay_substFail (cap : Capability) (w : Agent)
    (hfail : ∀ d a ts ctx, a.agent_id = w.agent_id → cap d a ts ctx = none) :
    ∀ d a ts ctx, simulateAgentDay cap d a ts ctx
      = simulateAgentDay (substFail cap w) d a ts ctx := by
  intro d a ts ctx
  by_cases h : a.agent_id = w.agent_id
  · rw [simulateAgentDay_fail cap d a ts ctx (hfail d a ts ctx h)]
    simp [simulateAgentDay, substFail, h, failedOutcome]
  · simp [simulateAgentDay, substFail, h]

theorem runAgents_congr (cap cap' : Capability)
    (h : ∀ d a ts ctx, simulateAgentDay cap d a ts ctx = simulateAgentDay cap' d a ts ctx)
    (day : Nat) (avail : List Task) :
    ∀ (agents : List Agent) (st : EngineSt σ),
      runAgents cap day avail agents st = runAgents cap' day avail agents st := by
  intro agents
  induction agents with
  | nil => intro st; rfl
  | cons a rest ih =>
    intro st
    unfold runAgents
    by_cases he : (avail.filter (fun t => decide (t.task_id ∈ a.assigned_tasks))).isEmpty
    · rw [if_pos he, if_pos he, ih]
    · rw [if_neg he, if_neg he, h]
      dsimp only
      cases applyCompleted st.status
          (simulateAgentDay cap' day a
            (avail.filter (fun t => decide (t.task_id ∈ a.assigned_tasks)))
            (buildContext day a st.status)).completed_tasks with
      | none => rfl
      | some s => exact ih _

theorem runAgentsStream_congr (cap cap' : Capability)
    (h : ∀ d a ts ctx, simulateAgentDay cap d a ts ctx = simulateAgentDay cap' d a ts ctx)
    (day : Nat) (avail : List Task) :
    ∀ (agents : List Agent) (st : EngineSt σ) (acc : List LogEntry),
      runAgentsStream cap day avail agents st acc
        = runAgentsStream cap' day avail agents st acc := by
  intro agents
  induction agents with
  | nil => intro st acc; rfl
  | cons a rest ih =>
    intro st acc
    unfold runAgentsStream
    by_cases he : (avail.filter (fun t => decide (t.task_id ∈ a.assigned_tasks))).isEmpty
    · rw [if_pos he, if_pos he, ih]
    · rw [if_neg he, if_neg he, h]
      dsimp only
      cases applyCompleted st.status
          (simulateAgentDay cap' day a
            (avail.filter (fun t => decide (t.task_id ∈ a.assigned_tasks)))
            (buildContext day a st.status)).completed_tasks with
      | none => rfl
      | some s => exact ih _ _

theorem runDays_congr (cap cap' : Capability) (envFn : EnvFn σ) (enableEnv : Bool)
    (agents : List Agent) (sortedTasks : List Task)
    (h : ∀ d a ts ctx, simulateAgentDay cap d a ts ctx = simulateAgentDay cap' d a ts ctx) :
    ∀ (days : List Nat) (st : EngineSt σ),
      runDays cap envFn enableEnv agents sortedTasks days st
        = runDays cap' envFn enableEnv agents sortedTasks days st := by
  intro days
  induction days with
  | nil => intro st; rfl
  | cons d ds ih =>
    intro st
    unfold runDays runDay
    cases getAvailableTasks sortedTasks st.status with
    | none => rfl
    | some avail =>
      by_cases he : avail.isEmpty
      · simp only [he, if_true, ih]
      · simp only [he, Bool.false_eq_true, if_false]
        rw [runAgents_congr cap cap' h]
        cases runAgents cap' d avail agents _ with
        | none => rfl
        | some st' => exact ih st'

theorem streamDays_congr (cap cap' : Capability) (envFn : EnvFn σ) (enableEnv : Bool)
    (agents : List Agent) (sortedTasks : List Task) (totalTasks : Nat)
    (h : ∀ d a ts ctx, simulateAgentDay cap d a ts ctx = simulateAgentDay cap' d a ts ctx) :
    ∀ (days : List Nat) (st : EngineSt σ),
      streamDays cap envFn enableEnv agents sortedTasks totalTasks days st
        = streamDays cap' envFn enableEnv agents sortedTasks totalTasks days st := by
  intro days
  induction days with
  | nil => intro st; rfl
  | cons d ds ih =>
    intro st
    unfold streamDays streamDay
    cases getAvailableTasks sortedTasks st.status with
    | none => rfl
    | some avail =>
      dsimp only
      rw [runAgentsStream_congr cap cap' h]
      cases hras : runAgentsStream cap' d avail agents _ [] with
      | none => rfl
      | some p =>
        obtain ⟨st2, dayLogs⟩ := p
        dsimp only
        rw [ih st2]

theorem runAgents_slogs_mono (cap : Capability) (day : Nat) (avail : List Task) :
    ∀ (agents : List Agent) (st st' : EngineSt σ),
      runAgents cap day avail agents st = some st' →
      ∃ added, st'.slogs = st.slogs ++ added := by
  intro agents
  induction agents with
  | nil =>
    intro st st' h
    exact ⟨[], by rw [← Option.some.inj h]; simp⟩
  | cons a rest ih =>
    intro st st' h
    unfold runAgents at h
    by_cases he : (avail.filter (fun t => decide (t.task_id ∈ a.assigned_tasks))).isEmpty
    · rw [if_pos he] at h
      exact ih st st' h
    · rw [if_neg he] at h
      dsimp only at h
      cases hap : applyCompleted st.status
          (simulateAgentDay cap day a
            (avail.filter (fun t => decide (t.task_id ∈ a.assigned_tasks)))
            (buildContext day a st.status)).completed_tasks with
      | none => rw [hap] at h; exact absurd h (by simp)
      | some s =>
        rw [hap] at h
        obtain ⟨added, hadd⟩ := ih _ st' h
        refine ⟨simulateAgentDay cap day a
          (avail.filter (fun t => decide (t.task_id ∈ a.assigned_tasks)))
          (buildContext day a st.status) :: added, ?_⟩
        rw [hadd]
        simp

theorem runAgents_fail_mem (cap : Capability) (w : Agent)
    (hfail : ∀ d a ts ctx, a.agent_id = w.agent_id → cap d a ts ctx = none)
    (day : Nat) (avail : List Task) :
    ∀ (agents : List Agent) (st st' : EngineSt σ), w ∈ agents →
      (∃ t ∈ avail, t.task_id ∈ w.assigned_tasks) →
      runAgents cap day avail agents st = some st' →
      failedOutcome day w ∈ st'.slogs := by
  intro agents
  induction agents with
  | nil => intro st st' hw; exact absurd hw (List.not_mem_nil w)
  | cons a rest ih =>
    intro st st' hw hex hrun
    unfold runAgents at hrun
    rcases List.mem_cons.mp hw with rfl | hw'
    · obtain ⟨t, ht, hta⟩ := hex
      have he : (avail.filter (fun u => decide (u.task_id ∈ w.assigned_tasks))).isEmpty
          = false := by
        rcases hfe : (avail.filter (fun u => decide (u.task_id ∈ w.assigned_tasks))) with
          _ | ⟨x, xs⟩
        · exact absurd (hfe ▸ List.mem_filter.mpr ⟨ht, by simpa using hta⟩)
            (List.not_mem_nil t)
        · rw [hfe]
          rfl
      dsimp only at hrun
      rw [he] at hrun
      simp only [Bool.false_eq_true, if_false] at hrun
      rw [simulateAgentDay_fail cap day w _ _
        (hfail day w _ _ rfl)] at hrun
      have hap : applyCompleted st.status (failedOutcome day w).completed_tasks
          = some st.status := rfl
      rw [hap] at hrun
      obtain ⟨added, hadd⟩ := runAgents_slogs_mono cap day avail rest _ st' hrun
      rw [hadd]
      simp [failedOutcome]
    · by_cases he : (avail.filter (fun u => decide (u.task_id ∈ a.assigned_tasks))).isEmpty
      · rw [if_pos he] at hrun
        exact ih st st' hw' hex hrun
      · rw [if_neg he] at hrun
        dsimp only at hrun
        cases hap : applyCompleted st.status
            (simulateAgentDay cap day a
              (avail.filter (fun u => decide (u.task_id ∈ a.assigned_tasks)))
              (buildContext day a st.status)).completed_tasks with
        | none => rw [hap] at hrun; exact absurd hrun (by simp)
        | some s =>
          rw [hap] at hrun
          exact ih _ st' hw' hex hrun

/-- C2: if the capability fails for a worker, (i) the orchestrator still
returns the empty outcome with the visible failure marker for it, (ii) the
whole batch run and (iii) the whole streaming run are identical to the
runs where that worker's capability succeeds with the empty failure-marked
outcome — every other worker on every day is processed exactly as it
would be then — and (iv) whenever a day's agent loop completes, the failed
worker's marked outcome is recorded in the logs. -/

theorem C2_capability_failure_isolated (cap : Capability) (w : Agent)
    (hfail : ∀ d a ts ctx, a.agent_id = w.agent_id → cap d a ts ctx = none) :
    (∀ d ts ctx, simulateAgentDay cap d w ts ctx = failedOutcome d w) ∧
    (∀ (envFn : EnvFn σ) agents tasks totalDays enableEnv envSt0,
      simulate cap envFn agents tasks totalDays enableEnv envSt0
        = simulate (substFail cap w) envFn agents tasks totalDays enableEnv envSt0) ∧
    (∀ (envFn : EnvFn σ) agents tasks totalDays enableEnv envSt0 prevLogs,
      simulateStream cap envFn agents tasks totalDays enableEnv envSt0 prevLogs
        = simulateStream (substFail cap w) envFn agents tasks totalDays enableEnv envSt0 prevLogs) ∧
    (∀ (day : Nat) (avail : List Task) (agents : List Agent) (st st' : EngineSt σ),
      w ∈ agents → (∃ t ∈ avail, t.task_id ∈ w.assigned_tasks) →
      runAgents cap day avail agents st = some st' →
      failedOutcome day w ∈ st'.slogs) := by
  have hpt := simulateAgentDay_substFail cap w hfail
  refine ⟨?_, ?_, ?_, ?_⟩
  · intro d ts ctx
    exact simulateAgentDay_fail cap d w ts ctx (hfail d w ts ctx rfl)
  · intro envFn agents tasks totalDays enableEnv envSt0
    unfold simulate
    rw [runDays_congr cap (substFail cap w) envFn enableEnv agents
      (topologicalSort tasks) hpt]
  · intro envFn agents tasks totalDays enableEnv envSt0 prevLogs
    unfold simulateStream
    rw [streamDays_congr cap (substFail cap w) envFn enableEnv agents
      (topologicalSort tasks) tasks.length hpt]
  · intro day avail agents st st' hw hex hrun
    exact runAgents_fail_mem cap w hfail day avail agents st st' hw hex hrun

/-- Witness for C2 at a concrete failing capability and one-worker run. -/

theorem C2_capability_failure_isolated_witness :
    simulateAgentDay capFailW 1 wW [t0W] "ctx" = failedOutcome 1 wW ∧
    simulate capFailW envFnUnit [wW] [t0W] 2 false ()
      = simulate (substFail capFailW wW) envFnUnit [wW] [t0W] 2 false () ∧
    simulateStream capFailW envFnUnit [wW] [t0W] 2 false () []
      = simulateStream (substFail capFailW wW) envFnUnit [wW] [t0W] 2 false () [] :=
  ⟨(@C2_capability_failure_isolated Unit capFailW wW
      (fun d a ts ctx h => by simp [capFailW, h, wW])).1 1 [t0W] "ctx",
   (@C2_capability_failure_isolated Unit capFailW wW
      (fun d a ts ctx h => by simp [capFailW, h, wW])).2.1 envFnUnit [wW] [t0W] 2 false (),
   (@C2_capability_failure_isolated Unit capFailW wW
      (fun d a ts ctx h => by simp [capFailW, h, wW])).2.2.1 envFnUnit [wW] [t0W] 2 false () []⟩

/-! ### C10: daily summaries kept iff some task started or completed -/

theorem mem_filtered_summaries (f : Nat → Summary) (days : List Nat) (s : Summary) :
    s ∈ ((days.map f).filter
        (fun u => decide (0 < u.total_tasks_started ∨ 0 < u.total_tasks_completed)))
      ↔ (∃ d ∈ days, s = f d) ∧
        (0 < s.total_tasks_started ∨ 0 < s.total_tasks_completed) := by
  rw [List.mem_filter, List.mem_map]
  constructor
  · rintro ⟨⟨d, hd, hfd⟩, hp⟩
    refine ⟨⟨d, hd, hfd.symm⟩, ?_⟩
    simpa using hp
  · rintro ⟨⟨d, hd, hfd⟩, hp⟩
    exact ⟨⟨d, hd, hfd.symm⟩, by simpa using hp⟩

theorem runAgentsStream_slogs (cap : Capability) (day : Nat) (avail : List Task) :
    ∀ (agents : List Agent) (st : EngineSt σ) (acc : List LogEntry)
      (st2 : EngineSt σ) (logs : List LogEntry),
      runAgentsStream cap day avail agents st acc = some (st2, logs) →
      st2.slogs = st.slogs := by
  intro agents
  induction agents with
  | nil =>
    intro st acc st2 logs h
    obtain ⟨h1, h2⟩ := Prod.mk.injEq .. ▸ Option.some.inj h
    rw [← h1]
  | cons a rest ih =>
    intro st acc st2 logs h
    unfold runAgentsStream at h
    by_cases he : (avail.filter (fun t => decide (t.task_id ∈ a.assigned_tasks))).isEmpty
    · rw [if_pos he] at h
      exact ih st acc st2 logs h
    · rw [if_neg he] at h
      dsimp only at h
      cases hap : applyCompleted st.status
          (simulateAgentDay cap day a
            (avail.filter (fun t => decide (t.task_id ∈ a.assigned_tasks)))
            (buildContext day a st.status)).completed_tasks with
      | none => rw [hap] at h; exact absurd h (by simp)
      | some s =>
        rw [hap] at h
        dsimp only at h
        have hres := ih _ _ _ _ h
        exact hres

theorem streamDay_props (cap : Capability) (envFn : EnvFn σ) (enableEnv : Bool)
    (agents : List Agent) (sortedTasks : List Task) (totalTasks : Nat) (day : Nat)
    (st : EngineSt σ) (units : List StreamUnit) (st' : EngineSt σ)
    (h : streamDay cap envFn enableEnv agents sortedTasks totalTasks day st
      = some (units, st')) :
    st'.slogs = st.slogs ∧ ∀ u ∈ units, isCompleteUnit u = false := by
  unfold streamDay at h
  split at h
  · exact absurd h (by simp)
  · rename_i avail hav
    dsimp only at h
    split at h
    · exact absurd h (by simp)
    · rename_i st2 dayLogs hras
      obtain ⟨hunits, hst⟩ := Prod.mk.injEq .. ▸ Option.some.inj h
      constructor
      · rw [← hst]
        have hs2 := runAgentsStream_slogs cap day avail agents _ _ _ _ hras
        exact hs2
      · intro u hu
        rw [← hunits] at hu
        rcases List.mem_append.mp hu with hu1 | hu2
        · rcases List.mem_append.mp hu1 with hu3 | hu4
          · rcases List.mem_singleton.mp (by simpa using hu3) with rfl
            rfl
          · by_cases hev :
              (if enableEnv = true then envFn day avail st.envSt else ([], st.envSt)).1.isEmpty
            · rw [if_pos hev] at hu4
              exact absurd hu4 (List.not_mem_nil u)
            · rw [if_neg hev] at hu4
              rcases List.mem_singleton.mp hu4 with rfl
              rfl
        · rcases List.mem_cons.mp hu2 with rfl | hu5
          · rfl
          · rcases List.mem_singleton.mp hu5 with rfl
            rfl

theorem streamDays_props (cap : Capability) (envFn : EnvFn σ) (enableEnv : Bool)
    (agents : List Agent) (sortedTasks : List Task) (totalTasks : Nat) :
    ∀ (days : List Nat) (st : EngineSt σ) (units : List StreamUnit) (st' : EngineSt σ),
      streamDays cap envFn enableEnv agents sortedTasks totalTasks days st
        = some (units, st') →
      st'.slogs = st.slogs ∧ ∀ u ∈ units, isCompleteUnit u = false := by
  intro days
  induction days with
  | nil =>
    intro st units st' h
    unfold streamDays at h
    obtain ⟨hunits, hst⟩ := Prod.mk.injEq .. ▸ Option.some.inj h
    exact ⟨hst ▸ rfl, fun u hu => absurd (hunits ▸ hu) (List.not_mem_nil u)⟩
  | cons d ds ih =>
    intro st units st' h
    unfold streamDays at h
    cases hsd : streamDay cap envFn enableEnv agents sortedTasks totalTasks d st with
    | none => rw [hsd] at h; exact absurd h (by simp)
    | some p =>
      obtain ⟨units1, st1⟩ := p
      rw [hsd] at h
      dsimp only at h
      cases hds : streamDays cap envFn enableEnv agents sortedTasks totalTasks ds st1 with
      | none => rw [hds] at h; exact absurd h (by simp)
      | some q =>
        obtain ⟨units2, st2⟩ := q
        rw [hds] at h
        dsimp only at h
        obtain ⟨hunits, hst⟩ := Prod.mk.injEq .. ▸ Option.some.inj h
        obtain ⟨hs1, hc1⟩ := streamDay_props cap envFn enableEnv agents sortedTasks
          totalTasks d st units1 st1 hsd
        obtain ⟨hs2, hc2⟩ := ih st1 units2 st2 hds
        refine ⟨by rw [← hst, hs2, hs1], ?_⟩
        intro u hu
        rcases List.mem_append.mp (hunits ▸ hu) with h1 | h2
        · exact hc1 u h1
        · exact hc2 u h2

/-- C10: in the batch result and in the streaming `complete` unit, the
`daily_summaries` list contains a day's summary iff that summary counts a
started task or a completed task; all-quiet days are dropped. -/

theorem C10_summaries_kept_iff (cap : Capability) (envFn : EnvFn σ)
    (agents : List Agent) (tasks : List Task) (totalDays : Nat) (enableEnv : Bool)
    (envSt0 : σ) (prevLogs : List Outcome) (res : SimResult)
    (units : List StreamUnit) :
    (simulate cap envFn agents tasks totalDays enableEnv envSt0 = some res →
      ∀ s, s ∈ res.daily_summaries ↔
        (∃ d ∈ dayRange totalDays,
          s = generateDailySummary d res.logs res.detailed_logs res.env_events) ∧
        (0 < s.total_tasks_started ∨ 0 < s.total_tasks_completed)) ∧
    (simulateStream cap envFn agents tasks totalDays enableEnv envSt0 prevLogs
        = some units →
      ∀ tl dl sums evs esum, StreamUnit.complete tl dl sums evs esum ∈ units →
        ∀ s, s ∈ sums ↔
          (∃ d ∈ dayRange totalDays,
            s = generateDailySummary d
              (prevLogs.filter (fun l => decide (l.day_number = d)))
              (dl.filter (fun l => decide (l.day = d)))
              (evs.filter (fun e => decide (e.day = d)))) ∧
          (0 < s.total_tasks_started ∨ 0 < s.total_tasks_completed)) := by
  constructor
  · intro hrun s
    unfold simulate at hrun
    cases hm : runDays cap envFn enableEnv agents (topologicalSort tasks)
        (dayRange totalDays) ⟨statusInit tasks, [], [], [], envSt0⟩ with
    | none => rw [hm] at hrun; exact absurd hrun (by simp)
    | some st =>
      rw [hm] at hrun
      rw [← Option.some.inj hrun]
      exact mem_filtered_summaries
        (fun d => generateDailySummary d st.slogs st.detail st.envEvents)
        (dayRange totalDays) s
  · intro hrun tl dl sums evs esum hmem s
    unfold simulateStream at hrun
    cases hm : streamDays cap envFn enableEnv agents (topologicalSort tasks)
        tasks.length (dayRange totalDays)
        ⟨statusInit tasks, prevLogs, [], [], envSt0⟩ with
    | none => rw [hm] at hrun; exact absurd hrun (by simp)
    | some p =>
      obtain ⟨units0, st⟩ := p
      rw [hm] at hrun
      dsimp only at hrun
      obtain ⟨hslogs, hnc⟩ := streamDays_props cap envFn enableEnv agents
        (topologicalSort tasks) tasks.length (dayRange totalDays) _ units0 st hm
      rw [← Option.some.inj hrun] at hmem
      rcases List.mem_append.mp hmem with hin | hfin
      · exact absurd (hnc _ hin) (by simp [isCompleteUnit])
      · rcases List.mem_singleton.mp hfin with hext
        obtain ⟨htl, hdl, hsums, hevs, hes⟩ := StreamUnit.complete.injEq .. ▸ hext
        rw [hsums, hdl, hevs]
        have hpl : st.slogs = prevLogs := hslogs
        rw [← hpl]
        exact mem_filtered_summaries
          (fun d => generateDailySummary d
            (st.slogs.filter (fun l => decide (l.day_number = d)))
            (st.detail.filter (fun l => decide (l.day = d)))
            (st.envEvents.filter (fun e => decide (e.day = d))))
          (dayRange totalDays) s

/-- Witness for C10 at the empty one-day run, for the day-1 summary. -/

theorem C10_summaries_kept_iff_witness :
    (generateDailySummary 1 [] [] [] ∈ resF.daily_summaries ↔
      (∃ d ∈ dayRange 1, generateDailySummary 1 [] [] []
        = generateDailySummary d resF.logs resF.detailed_logs resF.env_events) ∧
      (0 < (generateDailySummary 1 [] [] []).total_tasks_started ∨
       0 < (generateDailySummary 1 [] [] []).total_tasks_completed)) ∧
    (generateDailySummary 1 [] [] [] ∈ ([] : List Summary) ↔
      (∃ d ∈ dayRange 1, generateDailySummary 1 [] [] []
        = generateDailySummary d [] [] []) ∧
      (0 < (generateDailySummary 1 [] [] []).total_tasks_started ∨
       0 < (generateDailySummary 1 [] [] []).total_tasks_completed)) :=
  ⟨(C10_summaries_kept_iff capNone envFnUnit [] [] 1 false () [] resF unitsF).1 rfl
     (generateDailySummary 1 [] [] []),
   (C10_summaries_kept_iff capNone envFnUnit [] [] 1 false () [] resF unitsF).2 rfl
     0 [] [] [] none
     (List.mem_cons_of_mem _ (List.mem_cons_of_mem _ (List.mem_cons_of_mem _
       (List.mem_cons_self _ _))))
     (generateDailySummary 1 [] [] [])⟩

/-! ### C4: the streaming protocol shape -/

theorem smGet_isSome_of_any (m : StatusMap) (id : String)
    (h : List.any m (fun p => decide (p.1 = id)) = true) :
    (smGet m id).isSome = true := by
  induction m with
  | nil => simp at h
  | cons p rest ih =>
    by_cases hp : p.1 = id
    · simp [smGet, hp]
    · simp only [List.any_cons, Bool.or_eq_true, decide_eq_true_eq] at h
      rcases h with h | h
      · exact absurd h hp
      · simpa [smGet, hp] using ih h

theorem smGet_append (m m' : StatusMap) (id : String) :
    smGet (m ++ m') id
      = match smGet m id with
        | some v => some v
        | none => smGet m' id := by
  induction m with
  | nil => rfl
  | cons p rest ih =>
    by_cases hp : p.1 = id <;> simp [smGet, hp, ih]

theorem smGet_statusStep (m : StatusMap) (t : Task) (id : String) :
    ((smGet (if List.any m (fun p => p.1 = t.task_id) then
        List.map (fun p => if p.1 = t.task_id then (p.1, (⟨"pending", 0⟩ : TState)) else p) m
      else m ++ [(t.task_id, ⟨"pending", 0⟩)]) id).isSome = true
    ↔ (smGet m id).isSome = true ∨ id = t.task_id) := by
  by_cases hany : List.any m (fun p => decide (p.1 = t.task_id)) = true
  · rw [if_pos hany, smGet_overwrite m t.task_id (fun _ => ⟨"pending", 0⟩) id]
    cases hg : smGet m id with
    | none =>
      simp only [hg, Option.map_none', Option.isSome_none, Bool.false_eq_true, false_iff,
        false_or]
      intro h
      have hs := smGet_isSome_of_any m t.task_id hany
      rw [← h, hg] at hs
      simp at hs
    | some v => simp [hg]
  · rw [if_neg hany, smGet_append]
    cases hg : smGet m id with
    | some v => simp [hg]
    | none =>
      by_cases hid : t.task_id = id
      · simp [hg, smGet, hid, eq_comm]
      · simp only [hg, smGet, hid, if_false, Option.isSome_none, Bool.false_eq_true,
          false_iff, false_or]
        exact fun h => hid h.symm

theorem statusInit_isSome (tasks : List Task) (id : String) :
    ((smGet (statusInit tasks) id).isSome = true ↔ id ∈ tasks.map Task.task_id) := by
  suffices h : ∀ (m : StatusMap),
      ((smGet (tasks.foldl (fun m t =>
        if List.any m (fun p => p.1 = t.task_id) then
          List.map (fun p => if p.1 = t.task_id then (p.1, (⟨"pending", 0⟩ : TState)) else p) m
        else m ++ [(t.task_id, ⟨"pending", 0⟩)]) m) id).isSome = true
      ↔ (smGet m id).isSome = true ∨ id ∈ tasks.map Task.task_id) by
    have hh := h []
    simpa [statusInit, smGet] using hh
  induction tasks with
  | nil => intro m; simp
  | cons t rest ih =>
    intro m
    rw [List.foldl_cons, ih, smGet_statusStep]
    simp [or_assoc]

theorem taskDictGet_mem (tasks : List Task) (id : String) (t : Task)
    (h : taskDictGet tasks id = some t) : t ∈ tasks := by
  suffices hgen : ∀ (acc : Option Task),
      (∀ u, acc = some u → u ∈ tasks) →
      ∀ (l : List Task), (∀ u ∈ l, u ∈ tasks) →
      ∀ u, l.foldl (fun acc t => if t.task_id = id then some t else acc) acc = some u →
        u ∈ tasks by
    exact hgen none (by simp) tasks (fun u hu => hu) t h
  intro acc hacc l
  induction l generalizing acc with
  | nil => intro _ u hu; exact hacc u hu
  | cons x xs ih =>
    intro hl u hu
    rw [List.foldl_cons] at hu
    refine ih (if x.task_id = id then some x else acc) ?_
      (fun v hv => hl v (List.mem_cons_of_mem x hv)) u hu
    intro v hv
    by_cases hx : x.task_id = id
    · rw [if_pos hx] at hv
      rw [← Option.some.inj hv]
      exact hl x (List.mem_cons_self x xs)
    · rw [if_neg hx] at hv
      exact hacc v hv

theorem visitF_mem (tasks : List Task) :
    ∀ (fuel : Nat) (id : String) (st : List String × List Task),
      (∀ u ∈ st.2, u ∈ tasks) →
      ∀ u ∈ (visitF (taskDictGet tasks) fuel id st).2, u ∈ tasks := by
  intro fuel
  induction fuel with
  | zero => intro id st h; exact h
  | succ fuel ih =>
    intro id st h
    have hfold : ∀ (l : List String) (st : List String × List Task),
        (∀ u ∈ st.2, u ∈ tasks) →
        ∀ u ∈ (l.foldl (fun s d => visitF (taskDictGet tasks) fuel d s) st).2, u ∈ tasks := by
      intro l
      induction l with
      | nil => intro st h; exact h
      | cons d ds ihl => intro st h; exact ihl _ (ih d st h)
    unfold visitF
    by_cases hv : id ∈ st.1
    · rw [if_pos hv]; exact h
    · rw [if_neg hv]
      cases htd : taskDictGet tasks id with
      | none => exact h
      | some task =>
        dsimp only
        intro u hu
        rcases List.mem_append.mp hu with h1 | h2
        · exact hfold task.dependencies st h u h1
        · rw [List.mem_singleton.mp h2]
          exact taskDictGet_mem tasks id task htd

theorem topologicalSort_mem (tasks : List Task) :
    ∀ u ∈ topologicalSort tasks, u ∈ tasks := by
  unfold topologicalSort topoSortFuel
  suffices h : ∀ (l : List Task) (st : List String × List Task),
      (∀ u ∈ st.2, u ∈ tasks) →
      ∀ u ∈ (l.foldl (fun st t => visitF (taskDictGet tasks) tasks.length t.task_id st) st).2,
        u ∈ tasks by
    exact h tasks ([], []) (by simp)
  intro l
  induction l with
  | nil => intro st h; exact h
  | cons x xs ih =>
    intro st h
    exact ih _ (visitF_mem tasks tasks.length x.task_id st h)

theorem getAvailableTasks_isSome (tasks : List Task) (sm : StatusMap)
    (hall : ∀ t ∈ tasks, (smGet sm t.task_id).isSome = true) :
    ∃ avail, getAvailableTasks tasks sm = some avail ∧ ∀ t ∈ avail, t ∈ tasks := by
  induction tasks with
  | nil => exact ⟨[], rfl, by simp⟩
  | cons t rest ih =>
    obtain ⟨st, hst⟩ := Option.isSome_iff_exists.mp (hall t (List.mem_cons_self t rest))
    obtain ⟨avail, havail, hmem⟩ := ih (fun u hu => hall u (List.mem_cons_of_mem t hu))
    unfold getAvailableTasks
    rw [hst, havail]
    dsimp only
    by_cases hc : st.status = "completed"
    · rw [if_pos hc]
      exact ⟨avail, rfl, fun u hu => List.mem_cons_of_mem t (hmem u hu)⟩
    · rw [if_neg hc]
      by_cases hd : (t.dependencies.all (fun d => depCompleted sm d)) = true
      · rw [if_pos hd]
        refine ⟨t :: avail, rfl, ?_⟩
        intro u hu
        rcases List.mem_cons.mp hu with rfl | hu
        · exact List.mem_cons_self u rest
        · exact List.mem_cons_of_mem t (hmem u hu)
      · rw [if_neg hd]
        exact ⟨avail, rfl, fun u hu => List.mem_cons_of_mem t (hmem u hu)⟩

theorem applyCompleted_isSome (cts : List TaskResult) (sm : StatusMap)
    (h : ∀ ct ∈ cts, (smGet sm ct.task_id).isSome = true) :
    ∃ sm', applyCompleted sm cts = some sm' ∧
      ∀ id, (smGet sm' id).isSome = (smGet sm id).isSome := by
  induction cts generalizing sm with
  | nil => exact ⟨sm, rfl, fun id => rfl⟩
  | cons c rest ih =>
    obtain ⟨v, hv⟩ := Option.isSome_iff_exists.mp (h c (List.mem_cons_self c rest))
    cases hset : smSetExisting sm c.task_id (fun s =>
        { s with progress := c.progress_percentage,
                 status := if c.status = "completed" then "completed" else s.status }) with
    | none =>
      unfold smSetExisting at hset
      rw [hv] at hset
      exact absurd hset (by simp)
    | some sm1 =>
      have hkeys1 := smSetExisting_some sm _ _ sm1 hset
      have hrest : ∀ ct ∈ rest, (smGet sm1 ct.task_id).isSome = true := by
        intro ct hct
        rw [hkeys1 ct.task_id]
        have hsome := h ct (List.mem_cons_of_mem c hct)
        cases hg : smGet sm ct.task_id with
        | none => rw [hg] at hsome; simp at hsome
        | some w => simp
      obtain ⟨sm2, hsm2, hkeys2⟩ := ih sm1 hrest
      refine ⟨sm2, ?_, ?_⟩
      · unfold applyCompleted
        rw [hset]
        exact hsm2
      · intro id
        rw [hkeys2 id, hkeys1 id]
        cases smGet sm id <;> simp

theorem simulateAgentDay_known (cap : Capability) (tasks : List Task)
    (hcap : ∀ d a ts ctx r, cap d a ts ctx = some r →
      ∀ ct ∈ r.completed_tasks, ct.task_id ∈ tasks.map Task.task_id)
    (d : Nat) (a : Agent) (ts : List Task) (ctx : String) :
    ∀ ct ∈ (simulateAgentDay cap d a ts ctx).completed_tasks,
      ct.task_id ∈ tasks.map Task.task_id := by
  cases hc : cap d a ts ctx with
  | none => simp [simulateAgentDay, hc]
  | some r =>
    intro ct hct
    rw [simulateAgentDay, hc] at hct
    exact hcap d a ts ctx r hc ct hct

theorem runAgentsStream_some (cap : Capability) (tasks : List Task)
    (hcap : ∀ d a ts ctx r, cap d a ts ctx = some r →
      ∀ ct ∈ r.completed_tasks, ct.task_id ∈ tasks.map Task.task_id)
    (day : Nat) (avail : List Task) :
    ∀ (agents : List Agent) (st : EngineSt σ) (acc : List LogEntry),
      (∀ id, (smGet st.status id).isSome = true ↔ id ∈ tasks.map Task.task_id) →
      ∃ st2 logs, runAgentsStream cap day avail agents st acc = some (st2, logs) ∧
        (∀ id, (smGet st2.status id).isSome = true ↔ id ∈ tasks.map Task.task_id) := by
  intro agents
  induction agents with
  | nil => intro st acc hinv; exact ⟨st, acc, rfl, hinv⟩
  | cons a rest ih =>
    intro st acc hinv
    unfold runAgentsStream
    by_cases he : (avail.filter (fun t => decide (t.task_id ∈ a.assigned_tasks))).isEmpty
    · rw [if_pos he]
      exact ih st acc hinv
    · rw [if_neg he]
      dsimp only
      obtain ⟨sm', hap, hkeys⟩ := applyCompleted_isSome
        (simulateAgentDay cap day a
          (avail.filter (fun t => decide (t.task_id ∈ a.assigned_tasks)))
          (buildContext day a st.status)).completed_tasks st.status
        (fun ct hct => (hinv ct.task_id).mpr
          (simulateAgentDay_known cap tasks hcap day a _ _ ct hct))
      rw [hap]
      dsimp only
      exact ih _ _ (fun id => by rw [hkeys id]; exact hinv id)

theorem streamDay_eq (cap : Capability) (envFn : EnvFn σ) (enableEnv : Bool)
    (agents : List Agent) (sortedTasks : List Task) (totalTasks : Nat) (day : Nat)
    (st : EngineSt σ) (avail : List Task) (st2 : EngineSt σ) (logs : List LogEntry)
    (hav : getAvailableTasks sortedTasks st.status = some avail)
    (hras : runAgentsStream cap day avail agents
      { st with
        envSt := (if enableEnv then envFn day avail st.envSt else ([], st.envSt)).2,
        envEvents := st.envEvents ++
          (if enableEnv then envFn day avail st.envSt else ([], st.envSt)).1,
        detail := st.detail ++ List.map (envLogEntry day)
          (if enableEnv then envFn day avail st.envSt else ([], st.envSt)).1 } []
      = some (st2, logs)) :
    streamDay cap envFn enableEnv agents sortedTasks totalTasks day st
      = some ([StreamUnit.day_start day (avail.map Task.task_id)] ++
          (if (if enableEnv then envFn day avail st.envSt else ([], st.envSt)).1.isEmpty
           then []
           else [StreamUnit.env_event day
             (if enableEnv then envFn day avail st.envSt else ([], st.envSt)).1]) ++
          [StreamUnit.agent_work day logs,
           StreamUnit.day_summary day
             (st2.status.countP (fun q => q.2.status == "completed")) totalTasks
             (if enableEnv then envFn day avail st.envSt else ([], st.envSt)).1.length
             (generateDailySummary day
               (st2.slogs.filter (fun l => decide (l.day_number = day)))
               (st2.detail.filter (fun l => decide (l.day = day)))
               (st2.envEvents.filter (fun e => decide (e.day = day))))], st2) := by
  unfold streamDay
  rw [hav]
  dsimp only
  rw [hras]

theorem streamDays_shape (cap : Capability) (envFn : EnvFn σ) (enableEnv : Bool)
    (agents : List Agent) (sortedTasks : List Task) (totalTasks : Nat)
    (tasks : List Task)
    (hcap : ∀ d a ts ctx r, cap d a ts ctx = some r →
      ∀ ct ∈ r.completed_tasks, ct.task_id ∈ tasks.map Task.task_id)
    (hsub : ∀ t ∈ sortedTasks, t.task_id ∈ tasks.map Task.task_id) :
    ∀ (days : List Nat) (st : EngineSt σ),
      (∀ id, (smGet st.status id).isSome = true ↔ id ∈ tasks.map Task.task_id) →
      ∃ units st2,
        streamDays cap envFn enableEnv agents sortedTasks totalTasks days st
          = some (units, st2) ∧ StreamShape days units := by
  intro days
  induction days with
  | nil => intro st hinv; exact ⟨[], st, rfl, StreamShape.nil⟩
  | cons d ds ih =>
    intro st hinv
    have hall : ∀ t ∈ sortedTasks, (smGet st.status t.task_id).isSome = true :=
      fun t ht => (hinv t.task_id).mpr (hsub t ht)
    obtain ⟨avail, hav, -⟩ := getAvailableTasks_isSome sortedTasks st.status hall
    obtain ⟨st2, logs, hras, hinv2⟩ := runAgentsStream_some cap tasks hcap d avail agents
      { st with
        envSt := (if enableEnv then envFn d avail st.envSt else ([], st.envSt)).2,
        envEvents := st.envEvents ++
          (if enableEnv then envFn d avail st.envSt else ([], st.envSt)).1,
        detail := st.detail ++ List.map (envLogEntry d)
          (if enableEnv then envFn d avail st.envSt else ([], st.envSt)).1 } []
      (fun id => hinv id)
    obtain ⟨units2, st3, hds, hshape⟩ := ih st2 hinv2
    refine ⟨([StreamUnit.day_start d (avail.map Task.task_id)] ++
        (if (if enableEnv then envFn d avail st.envSt else ([], st.envSt)).1.isEmpty
         then []
         else [StreamUnit.env_event d
           (if enableEnv then envFn d avail st.envSt else ([], st.envSt)).1]) ++
        [StreamUnit.agent_work d logs,
         StreamUnit.day_summary d
           (st2.status.countP (fun q => q.2.status == "completed")) totalTasks
           (if enableEnv then envFn d avail st.envSt else ([], st.envSt)).1.length
           (generateDailySummary d
             (st2.slogs.filter (fun l => decide (l.day_number = d)))
             (st2.detail.filter (fun l => decide (l.day = d)))
             (st2.envEvents.filter (fun e => decide (e.day = d))))]) ++ units2,
      st3, ?_, ?_⟩
    · unfold streamDays
      rw [streamDay_eq cap envFn enableEnv agents sortedTasks totalTasks d st avail st2 logs
        hav hras]
      dsimp only
      rw [hds]
    · have hcons := StreamShape.day d ds (avail.map Task.task_id)
        (if enableEnv then envFn d avail st.envSt else ([], st.envSt)).1 logs
        (st2.status.countP (fun q => q.2.status == "completed")) totalTasks
        (if enableEnv then envFn d avail st.envSt else ([], st.envSt)).1.length
        (generateDailySummary d
          (st2.slogs.filter (fun l => decide (l.day_number = d)))
          (st2.detail.filter (fun l => decide (l.day = d)))
          (st2.envEvents.filter (fun e => decide (e.day = d)))) units2 hshape
      simpa [List.append_assoc] using hcons

/-- C4: in streaming mode, as long as every capability outcome references
only known task ids, the stream consists, for each day 1..total_days in
order, of exactly one `day_start` unit, then one `env_event` unit exactly
when that day's injected event list is non-empty, then exactly one
`agent_work` unit, then exactly one `day_summary` unit, followed by
exactly one final `complete` unit. -/

theorem C4_stream_protocol (cap : Capability) (envFn : EnvFn σ) (agents : List Agent)
    (tasks : List Task) (totalDays : Nat) (enableEnv : Bool) (envSt0 : σ)
    (prevLogs : List Outcome)
    (hcap : ∀ d a ts ctx r, cap d a ts ctx = some r →
      ∀ ct ∈ r.completed_tasks, ct.task_id ∈ tasks.map Task.task_id) :
    ∃ units tl dl sums evs esum,
      simulateStream cap envFn agents tasks totalDays enableEnv envSt0 prevLogs
        = some (units ++ [StreamUnit.complete tl dl sums evs esum]) ∧
      StreamShape (dayRange totalDays) units := by
  have hsub : ∀ t ∈ topologicalSort tasks, t.task_id ∈ tasks.map Task.task_id := by
    intro t ht
    exact List.mem_map.mpr ⟨t, topologicalSort_mem tasks t ht, rfl⟩
  obtain ⟨units, st2, hds, hshape⟩ := streamDays_shape cap envFn enableEnv agents
    (topologicalSort tasks) tasks.length tasks hcap hsub (dayRange totalDays)
    ⟨statusInit tasks, prevLogs, [], [], envSt0⟩
    (fun id => statusInit_isSome tasks id)
  refine ⟨units, st2.detail.length, st2.detail,
    ((dayRange totalDays).map (fun d =>
        generateDailySummary d
          (st2.slogs.filter (fun l => decide (l.day_number = d)))
          (st2.detail.filter (fun l => decide (l.day = d)))
          (st2.envEvents.filter (fun e => decide (e.day = d))))).filter
      (fun s => decide (0 < s.total_tasks_started ∨ 0 < s.total_tasks_completed)),
    st2.envEvents,
    (if enableEnv then some (getEventSummary st2.envEvents) else none), ?_, hshape⟩
  unfold simulateStream
  rw [hds]

/-- Witness for C4 at the empty one-day run with a never-succeeding
capability. -/

theorem C4_stream_protocol_witness :
    ∃ units tl dl sums evs esum,
      simulateStream capNone envFnUnit [] [] 1 false () []
        = some (units ++ [StreamUnit.complete tl dl sums evs esum]) ∧
      StreamShape (dayRange 1) units :=
  C4_stream_protocol capNone envFnUnit [] [] 1 false () []
    (fun d a ts ctx r h => absurd h (by simp [capNone]))

/-! ### C6: the topological sort -/

theorem taskDictGet_some (tasks : List Task) (id : String) (t : Task)
    (h : taskDictGet tasks id = some t) : t ∈ tasks ∧ t.task_id = id := by
  suffices hgen : ∀ (l : List Task), (∀ u ∈ l, u ∈ tasks) →
      ∀ (acc : Option Task), (∀ u, acc = some u → u ∈ tasks ∧ u.task_id = id) →
      ∀ u, l.foldl (fun acc t => if t.task_id = id then some t else acc) acc = some u →
        u ∈ tasks ∧ u.task_id = id by
    exact hgen tasks (fun u hu => hu) none (by simp) t h
  intro l
  induction l with
  | nil => intro _ acc hacc u hu; exact hacc u hu
  | cons x xs ih =>
    intro hl acc hacc u hu
    rw [List.foldl_cons] at hu
    refine ih (fun v hv => hl v (List.mem_cons_of_mem x hv)) _ ?_ u hu
    intro v hv
    by_cases hx : x.task_id = id
    · rw [if_pos hx] at hv
      exact (Option.some.inj hv) ▸ ⟨hl x (List.mem_cons_self x xs), hx⟩
    · rw [if_neg hx] at hv
      exact hacc v hv

theorem taskDictGet_eq_none (tasks : List Task) (id : String)
    (h : taskDictGet tasks id = none) : ∀ u ∈ tasks, u.task_id ≠ id := by
  suffices hgen : ∀ (l : List Task) (acc : Option Task),
      l.foldl (fun acc t => if t.task_id = id then some t else acc) acc = none →
      acc = none ∧ ∀ u ∈ l, u.task_id ≠ id by
    exact (hgen tasks none h).2
  intro l
  induction l with
  | nil => intro acc h; exact ⟨h, by simp⟩
  | cons x xs ih =>
    intro acc h
    rw [List.foldl_cons] at h
    obtain ⟨hstep, hxs⟩ := ih _ h
    by_cases hx : x.task_id = id
    · rw [if_pos hx] at hstep
      exact absurd hstep (by simp)
    · rw [if_neg hx] at hstep
      refine ⟨hstep, ?_⟩
      intro u hu
      rcases List.mem_cons.mp hu with rfl | hu
      · exact hx
      · exact hxs u hu

theorem foldl_dict_no_match (id : String) (l : List Task)
    (h : ∀ u ∈ l, u.task_id ≠ id) (acc : Option Task) :
    l.foldl (fun acc t => if t.task_id = id then some t else acc) acc = acc := by
  induction l generalizing acc with
  | nil => rfl
  | cons x xs ih =>
    rw [List.foldl_cons, if_neg (h x (List.mem_cons_self x xs))]
    exact ih (fun u hu => h u (List.mem_cons_of_mem x hu)) acc

theorem taskDictGet_self (tasks : List Task)
    (hnodup : (tasks.map Task.task_id).Nodup) (t : Task) (ht : t ∈ tasks) :
    taskDictGet tasks t.task_id = some t := by
  induction tasks with
  | nil => exact absurd ht (List.not_mem_nil t)
  | cons x xs ih =>
    rw [List.map_cons, List.nodup_cons] at hnodup
    rcases List.mem_cons.mp ht with rfl | ht'
    · show List.foldl _ (if t.task_id = t.task_id then some t else none) xs = some t
      rw [if_pos rfl]
      refine foldl_dict_no_match t.task_id xs ?_ (some t)
      intro u hu he
      exact hnodup.1 (he ▸ List.mem_map.mpr ⟨u, hu, rfl⟩)
    · have hx : x.task_id ≠ t.task_id := by
        intro he
        exact hnodup.1 (he ▸ List.mem_map.mpr ⟨t, ht', rfl⟩)
      show List.foldl _ (if x.task_id = t.task_id then some x else none) xs = some t
      rw [if_neg hx]
      exact ih hnodup.2 ht'

theorem visitF_spec (tasks : List Task) (rank : String → Nat)
    (hrank : ∀ t ∈ tasks, ∀ d ∈ t.dependencies, rank d < rank t.task_id) :
    ∀ (fuel : Nat) (id : String) (st : List String × List Task),
      rank id < fuel → SortInv tasks st →
      SortInv tasks (visitF (taskDictGet tasks) fuel id st) ∧
      (∃ suffix, (visitF (taskDictGet tasks) fuel id st).2 = st.2 ++ suffix ∧
        ∀ u ∈ suffix, rank u.task_id ≤ rank id) ∧
      ((∃ u ∈ tasks, u.task_id = id) → id ∈ (visitF (taskDictGet tasks) fuel id st).1) := by
  intro fuel
  induction fuel with
  | zero => intro id st hf; exact absurd hf (by simp)
  | succ fuel ih =>
    intro id st hf hinv
    unfold visitF
    by_cases hvis : id ∈ st.1
    · rw [if_pos hvis]
      exact ⟨hinv, ⟨[], by simp, by simp⟩, fun _ => hvis⟩
    · rw [if_neg hvis]
      cases htd : taskDictGet tasks id with
      | none =>
        refine ⟨hinv, ⟨[], by simp, by simp⟩, ?_⟩
        rintro ⟨u, hu, hid⟩
        exact absurd hid (taskDictGet_eq_none tasks id htd u hu)
      | some task =>
        obtain ⟨htask_mem, htask_id⟩ := taskDictGet_some tasks id task htd
        have hdeps_rank : ∀ d ∈ task.dependencies, rank d < rank id :=
          fun d hd => htask_id ▸ hrank task htask_mem d hd
        have hfold : ∀ (l : List String), (∀ d ∈ l, rank d < rank id) →
            ∀ (st1 : List String × List Task), SortInv tasks st1 →
            SortInv tasks
              (l.foldl (fun s d => visitF (taskDictGet tasks) fuel d s) st1) ∧
            (∃ suffix,
              (l.foldl (fun s d => visitF (taskDictGet tasks) fuel d s) st1).2
                = st1.2 ++ suffix ∧ ∀ u ∈ suffix, rank u.task_id < rank id) ∧
            (∀ d ∈ l, (∃ u ∈ tasks, u.task_id = d) →
              d ∈ (l.foldl (fun s d => visitF (taskDictGet tasks) fuel d s) st1).1) := by
          intro l
          induction l with
          | nil =>
            intro _ st1 h1
            exact ⟨h1, ⟨[], by simp, by simp⟩, by simp⟩
          | cons d ds ihl =>
            intro hl st1 h1
            rw [List.foldl_cons]
            have hd_rank : rank d < rank id := hl d (List.mem_cons_self d ds)
            have hd_fuel : rank d < fuel :=
              lt_of_lt_of_le hd_rank (Nat.lt_succ_iff.mp hf)
            obtain ⟨hinv1, ⟨suf1, hsuf1, hrank1⟩, hmem1⟩ := ih d st1 hd_fuel h1
            obtain ⟨hinv2, ⟨suf2, hsuf2, hrank2⟩, hmem2⟩ :=
              ihl (fun x hx => hl x (List.mem_cons_of_mem d hx)) _ hinv1
            refine ⟨hinv2, ⟨suf1 ++ suf2, ?_, ?_⟩, ?_⟩
            · rw [hsuf2, hsuf1, List.append_assoc]
            · intro u hu
              rcases List.mem_append.mp hu with h | h
              · exact lt_of_le_of_lt (hrank1 u h) hd_rank
              · exact hrank2 u h
            · intro x hx hex
              rcases List.mem_cons.mp hx with rfl | hx'
              · have hd_in := hmem1 hex
                rw [hinv1.1, List.mem_reverse] at hd_in
                rw [hinv2.1, List.mem_reverse, hsuf2, List.map_append]
                exact List.mem_append_left _ hd_in
              · exact hmem2 x hx' hex
        obtain ⟨⟨heq1, hmem', hnd', hdb'⟩, ⟨suf, hsuf, hranks⟩, hdeps_in⟩ :=
          hfold task.dependencies hdeps_rank st hinv
        have hid_not : id ∉ ((task.dependencies.foldl
            (fun s d => visitF (taskDictGet tasks) fuel d s) st).2.map Task.task_id) := by
          rw [hsuf, List.map_append]
          intro hmem
          rcases List.mem_append.mp hmem with h | h
          · rw [hinv.1] at hvis
            exact hvis (List.mem_reverse.mpr h)
          · obtain ⟨u, hu, huid⟩ := List.mem_map.mp h
            have hlt := hranks u hu
            rw [huid] at hlt
            exact lt_irrefl _ hlt
        dsimp only
        refine ⟨⟨?_, ?_, ?_, ?_⟩, ⟨suf ++ [task], ?_, ?_⟩, fun _ => List.mem_cons_self _ _⟩
        · rw [heq1, List.map_append, List.reverse_append]
          simp [htask_id]
        · intro u hu
          rcases List.mem_append.mp hu with h | h
          · exact hmem' u h
          · rw [List.mem_singleton.mp h]
            exact htask_mem
        · rw [List.map_append]
          rw [List.nodup_append]
          refine ⟨hnd', by simp, ?_⟩
          intro x hx hx1
          rcases List.mem_singleton.mp hx1 with rfl
          exact hid_not (htask_id ▸ hx)
        · intro n t hget d hd hex
          by_cases hn : n < (task.dependencies.foldl
              (fun s d => visitF (taskDictGet tasks) fuel d s) st).2.length
          · rw [List.get?_append hn] at hget
            obtain ⟨m, u, hm, hgu, huid⟩ := hdb' n t hget d hd hex
            refine ⟨m, u, hm, ?_, huid⟩
            rw [List.get?_append (lt_trans hm hn)]
            exact hgu
          · have hlen : n < (task.dependencies.foldl
                (fun s d => visitF (taskDictGet tasks) fuel d s) st).2.length + 1 := by
              obtain ⟨hlt, -⟩ := List.get?_eq_some.mp hget
              simpa [List.length_append] using hlt
            have hn' : n = (task.dependencies.foldl
                (fun s d => visitF (taskDictGet tasks) fuel d s) st).2.length := by
              omega
            subst hn'
            rw [List.get?_concat_length] at hget
            cases Option.some.inj hget
            have hd_in := hdeps_in d hd hex
            rw [heq1, List.mem_reverse] at hd_in
            obtain ⟨u, hu, huid⟩ := List.mem_map.mp hd_in
            obtain ⟨m, hgm⟩ := List.get?_of_mem hu
            obtain ⟨hm, -⟩ := List.get?_eq_some.mp hgm
            exact ⟨m, u, hm, by rw [List.get?_append hm]; exact hgm, huid⟩
        · rw [hsuf, List.append_assoc]
        · intro u hu
          rcases List.mem_append.mp hu with h | h
          · exact le_of_lt (hranks u h)
          · rw [List.mem_singleton.mp h, htask_id]

theorem visitF_irrel (tasks : List Task) (rank : String → Nat)
    (hrank : ∀ t ∈ tasks, ∀ d ∈ t.dependencies, rank d < rank t.task_id) :
    ∀ (r : Nat) (id : String), rank id ≤ r →
      ∀ (f g : Nat) (st : List String × List Task), rank id < f → rank id < g →
      visitF (taskDictGet tasks) f id st = visitF (taskDictGet tasks) g id st := by
  intro r
  induction r with
  | zero =>
    intro id hr f g st hf hg
    cases f with
    | zero => omega
    | succ f' =>
      cases g with
      | zero => omega
      | succ g' =>
        unfold visitF
        by_cases hvis : id ∈ st.1
        · rw [if_pos hvis, if_pos hvis]
        · rw [if_neg hvis, if_neg hvis]
          cases htd : taskDictGet tasks id with
          | none => rfl
          | some task =>
            obtain ⟨hm, hid⟩ := taskDictGet_some tasks id task htd
            dsimp only
            cases hdeps : task.dependencies with
            | nil => rfl
            | cons d ds =>
              have hlt := hrank task hm d (by rw [hdeps]; exact List.mem_cons_self d ds)
              rw [hid] at hlt
              omega
  | succ r ihr =>
    intro id hr f g st hf hg
    cases f with
    | zero => omega
    | succ f' =>
      cases g with
      | zero => omega
      | succ g' =>
        unfold visitF
        by_cases hvis : id ∈ st.1
        · rw [if_pos hvis, if_pos hvis]
        · rw [if_neg hvis, if_neg hvis]
          cases htd : taskDictGet tasks id with
          | none => rfl
          | some task =>
            obtain ⟨hm, hid⟩ := taskDictGet_some tasks id task htd
            have hdr : ∀ d ∈ task.dependencies, rank d < rank id :=
              fun d hd => hid ▸ hrank task hm d hd
            have hfold : ∀ (l : List String), (∀ d ∈ l, rank d < rank id) →
                ∀ (st1 : List String × List Task),
                  l.foldl (fun s d => visitF (taskDictGet tasks) f' d s) st1
                    = l.foldl (fun s d => visitF (taskDictGet tasks) g' d s) st1 := by
              intro l
              induction l with
              | nil => intro _ st1; rfl
              | cons d ds ihl =>
                intro hl st1
                have hd := hl d (List.mem_cons_self d ds)
                rw [List.foldl_cons, List.foldl_cons,
                  ihr d (by omega) f' g' st1 (by omega) (by omega)]
                exact ihl (fun x hx => hl x (List.mem_cons_of_mem d hx)) _
            dsimp only
            rw [hfold task.dependencies hdr st]

theorem visitF_visited_mono (td : String → Option Task) :
    ∀ (fuel : Nat) (id : String) (st : List String × List Task) (x : String),
      x ∈ st.1 → x ∈ (visitF td fuel id st).1 := by
  intro fuel
  induction fuel with
  | zero => intro id st x h; exact h
  | succ fuel ih =>
    intro id st x h
    unfold visitF
    by_cases hvis : id ∈ st.1
    · rw [if_pos hvis]; exact h
    · rw [if_neg hvis]
      cases td id with
      | none => exact h
      | some task =>
        dsimp only
        refine List.mem_cons_of_mem _ ?_
        have hfold : ∀ (l : List String) (st1 : List String × List Task),
            x ∈ st1.1 → x ∈ (l.foldl (fun s d => visitF td fuel d s) st1).1 := by
          intro l
          induction l with
          | nil => intro st1 h1; exact h1
          | cons d ds ihl => intro st1 h1; exact ihl _ (ih d st1 x h1)
        exact hfold task.dependencies st h

theorem topoFold_visited_mono (td : String → Option Task) (fuel : Nat) :
    ∀ (m : List Task) (st : List String × List Task) (x : String),
      x ∈ st.1 →
      x ∈ (m.foldl (fun st t => visitF td fuel t.task_id st) st).1 := by
  intro m
  induction m with
  | nil => intro st x h; exact h
  | cons v vs ihm =>
    intro st x h
    rw [List.foldl_cons]
    exact ihm _ x (visitF_visited_mono td fuel v.task_id st x h)

theorem topoSort_fold_spec (tasks : List Task) (rank : String → Nat)
    (hrank : ∀ t ∈ tasks, ∀ d ∈ t.dependencies, rank d < rank t.task_id)
    (hbound : ∀ t ∈ tasks, rank t.task_id < tasks.length) :
    ∀ (l : List Task), (∀ t ∈ l, t ∈ tasks) →
      ∀ (st : List String × List Task), SortInv tasks st →
      SortInv tasks (l.foldl
        (fun st t => visitF (taskDictGet tasks) tasks.length t.task_id st) st) ∧
      (∀ t ∈ l, t.task_id ∈ (l.foldl
        (fun st t => visitF (taskDictGet tasks) tasks.length t.task_id st) st).1) := by
  intro l
  induction l with
  | nil => intro _ st hinv; exact ⟨hinv, by simp⟩
  | cons t xs ihl =>
    intro hsub st hinv
    have ht : t ∈ tasks := hsub t (List.mem_cons_self t xs)
    obtain ⟨hinv1, -, hmem1⟩ := visitF_spec tasks rank hrank tasks.length
      t.task_id st (hbound t ht) hinv
    rw [List.foldl_cons]
    obtain ⟨hinv2, hmem2⟩ := ihl (fun u hu => hsub u (List.mem_cons_of_mem t hu)) _ hinv1
    refine ⟨hinv2, ?_⟩
    intro u hu
    rcases List.mem_cons.mp hu with rfl | hu'
    · exact topoFold_visited_mono (taskDictGet tasks) tasks.length xs _ u.task_id
        (hmem1 ⟨u, ht, rfl⟩)
    · exact hmem2 u hu'

theorem topoSortFuel_stable (tasks : List Task) (rank : String → Nat)
    (hrank : ∀ t ∈ tasks, ∀ d ∈ t.dependencies, rank d < rank t.task_id)
    (hbound : ∀ t ∈ tasks, rank t.task_id < tasks.length)
    (fuel : Nat) (hfuel : tasks.length ≤ fuel) :
    topoSortFuel tasks fuel = topologicalSort tasks := by
  unfold topologicalSort topoSortFuel
  suffices h : ∀ (l : List Task), (∀ t ∈ l, t ∈ tasks) →
      ∀ (st : List String × List Task),
      l.foldl (fun st t => visitF (taskDictGet tasks) fuel t.task_id st) st
        = l.foldl (fun st t => visitF (taskDictGet tasks) tasks.length t.task_id st) st by
    rw [h tasks (fun t ht => ht) ([], [])]
  intro l
  induction l with
  | nil => intro _ st; rfl
  | cons t xs ihl =>
    intro hsub st
    have ht : t ∈ tasks := hsub t (List.mem_cons_self t xs)
    have hb := hbound t ht
    rw [List.foldl_cons, List.foldl_cons,
      visitF_irrel tasks rank hrank (rank t.task_id) t.task_id le_rfl fuel tasks.length st
        (by omega) hb]
    exact ihl (fun u hu => hsub u (List.mem_cons_of_mem t hu)) _

theorem topoSort_nodeps (tasks : List Task)
    (hnodup : (tasks.map Task.task_id).Nodup)
    (hnd : ∀ t ∈ tasks, t.dependencies = []) :
    topologicalSort tasks = tasks := by
  unfold topologicalSort topoSortFuel
  suffices h : ∀ (l : List Task), (∀ t ∈ l, t ∈ tasks) → (l.map Task.task_id).Nodup →
      ∀ (st : List String × List Task), (∀ t ∈ l, t.task_id ∉ st.1) →
      l.foldl (fun st t => visitF (taskDictGet tasks) tasks.length t.task_id st) st
        = ((l.map Task.task_id).reverse ++ st.1, st.2 ++ l) by
    rw [h tasks (fun t ht => ht) hnodup ([], []) (by simp)]
    rfl
  intro l
  induction l with
  | nil => intro _ _ st _; simp
  | cons t xs ihl =>
    intro hsub hnod st hnotin
    have ht : t ∈ tasks := hsub t (List.mem_cons_self t xs)
    have htne : tasks ≠ [] := fun he => by rw [he] at ht; exact List.not_mem_nil t ht
    obtain ⟨k, hk⟩ : ∃ k, tasks.length = k + 1 := by
      cases hc : tasks with
      | nil => exact absurd hc htne
      | cons a as => exact ⟨as.length, by simp⟩
    have hstep : visitF (taskDictGet tasks) tasks.length t.task_id st
        = (t.task_id :: st.1, st.2 ++ [t]) := by
      rw [hk]
      unfold visitF
      rw [if_neg (hnotin t (List.mem_cons_self t xs)),
        taskDictGet_self tasks hnodup t ht]
      dsimp only
      rw [hnd t ht]
      rfl
    rw [List.foldl_cons, hstep]
    rw [List.map_cons, List.nodup_cons] at hnod
    rw [ihl (fun u hu => hsub u (List.mem_cons_of_mem t hu)) hnod.2
      (t.task_id :: st.1, st.2 ++ [t]) ?notin]
    case notin =>
      intro u hu
      intro hmem
      rcases List.mem_cons.mp hmem with he | hin
      · exact hnod.1 (he ▸ List.mem_map.mpr ⟨u, hu, rfl⟩)
      · exact hnotin u (List.mem_cons_of_mem t hu) hin
    rw [List.map_cons, List.reverse_cons, List.append_assoc]
    simp

/-- C6 (amended): on a task list with distinct ids whose dependency
graph is acyclic (witnessed by a rank function bounded by the list
length) and whose dependency ids all occur in the list, the recursive
topological sort stabilizes for every recursion budget of at least the
list length (the unguarded Python recursion terminates), returns each
input task exactly once, places every dependency that occurs in the list
strictly before its dependent, and on a fully independent task list (no
dependencies at all) preserves the input order exactly.  (The original
claim's blanket tie-order clause is dropped: a dependency can hoist a
later task ahead of earlier independent ones, see the counterexample.) -/

theorem C6_topological_sort (tasks : List Task) (rank : String → Nat)
    (hnodup : (tasks.map Task.task_id).Nodup)
    (hdeps : ∀ t ∈ tasks, ∀ d ∈ t.dependencies, ∃ u ∈ tasks, u.task_id = d)
    (hrank : ∀ t ∈ tasks, ∀ d ∈ t.dependencies, rank d < rank t.task_id)
    (hbound : ∀ t ∈ tasks, rank t.task_id < tasks.length) :
    (topologicalSort tasks).Perm tasks ∧
    depsRespected tasks (topologicalSort tasks) ∧
    (∀ fuel, tasks.length ≤ fuel → topoSortFuel tasks fuel = topologicalSort tasks) ∧
    ((∀ t ∈ tasks, t.dependencies = []) → topologicalSort tasks = tasks) := by
  have hinv0 : SortInv tasks ([], []) := by
    refine ⟨rfl, by simp, by simp, ?_⟩
    intro n t h
    simp at h
  obtain ⟨⟨heq, hmem, hnd, hdb⟩, hvisited⟩ :=
    topoSort_fold_spec tasks rank hrank hbound tasks (fun t ht => ht) ([], []) hinv0
  have hout : topologicalSort tasks
      = (tasks.foldl (fun st t => visitF (taskDictGet tasks) tasks.length t.task_id st)
          ([], [])).2 := rfl
  refine ⟨?_, ?_, ?_, ?_⟩
  · -- permutation
    have hnd_out : (topologicalSort tasks).Nodup := by
      rw [hout]
      exact List.Nodup.of_map Task.task_id hnd
    have hnd_tasks : tasks.Nodup := List.Nodup.of_map Task.task_id hnodup
    rw [List.perm_ext_iff_of_nodup hnd_out hnd_tasks]
    intro u
    constructor
    · intro hu
      rw [hout] at hu
      exact hmem u hu
    · intro hu
      have hid := hvisited u hu
      rw [heq, List.mem_reverse] at hid
      obtain ⟨v, hv, hvid⟩ := List.mem_map.mp hid
      have hv_tasks := hmem v hv
      have : v = u := List.inj_on_of_nodup_map hnodup hv_tasks hu hvid
      rw [hout, ← this]
      exact hv
  · exact hout ▸ hdb
  · exact fun fuel hf => topoSortFuel_stable tasks rank hrank hbound fuel hf
  · exact fun hnd' => topoSort_nodeps tasks hnodup hnd'

/-- Counterexample for C6 as stated: with `tieTasks` (an acyclic list
with all dependencies present and distinct ids), tasks A and B are
mutually independent and A precedes B in the input, but the sort outputs
B before A — ties among independent tasks do not preserve input order. -/

theorem C6_counterexample :
    topologicalSort tieTasks = [⟨"B", "B", []⟩, ⟨"X", "X", ["B"]⟩, ⟨"A", "A", []⟩] ∧
    tieTasks.get? 1 = some ⟨"A", "A", []⟩ ∧
    tieTasks.get? 2 = some ⟨"B", "B", []⟩ ∧
    (Task.dependencies ⟨"A", "A", []⟩ = [] ∧ Task.dependencies ⟨"B", "B", []⟩ = []) ∧
    (topologicalSort tieTasks).get? 0 = some ⟨"B", "B", []⟩ ∧
    (topologicalSort tieTasks).get? 2 = some ⟨"A", "A", []⟩ := by
  refine ⟨?_, rfl, rfl, ⟨rfl, rfl⟩, ?_, ?_⟩ <;> rfl

/-- Witness for C6 at the concrete acyclic task list `tieTasks`. -/

theorem C6_topological_sort_witness :
    (topologicalSort tieTasks).Perm tieTasks ∧
    depsRespected tieTasks (topologicalSort tieTasks) ∧
    (∀ fuel, tieTasks.length ≤ fuel → topoSortFuel tieTasks fuel = topologicalSort tieTasks) ∧
    ((∀ t ∈ tieTasks, t.dependencies = []) → topologicalSort tieTasks = tieTasks) :=
  C6_topological_sort tieTasks rankW (by decide) (by decide) (by decide) (by decide)

end TWork
